import Mathlib

/-!
Verification of the weather analysis engine.

This file contains a shallow embedding, in Lean 4, of the analysis engine of
the Weather-Analysis-Report-Generation-CLI-Tool repository (src/analyzer.py,
src/config.py, src/data_handler.py), together with theorems settling the
frozen claims about it.  Numbers that the Python code holds as floats are
modelled as rationals; dictionaries with a fixed key set are modelled as
association lists in insertion order, and the empty dictionary returned for
empty input is modelled as none or as the empty association list.
-/

namespace Weather

/-- A weather record, as produced by WeatherAPI.parse of weather_api.py and
consumed by WeatherAnalyzer of analyzer.py.  Field order follows the dict
built in weather_api.py. -/
structure WRec where
  city : String
  temperature : ℚ
  humidity : ℤ
  description : String
  wind_speed : ℚ
  country : String
  timestamp : String
  deriving DecidableEq, Repr

/-- The threshold configuration of config.py (TEMP_RANGES).  The source keeps
it as a module-level dict that the analyzer imports; it is modelled as an
explicit parameter of the range bucketing. -/
structure TempRanges where
  very_hot : ℚ
  hot : ℚ
  warm : ℚ
  moderate : ℚ
  cool : ℚ
  deriving DecidableEq, Repr

/-- The default thresholds of config.py: TEMP_RANGES. -/
def TEMP_RANGES : TempRanges := ⟨35, 30, 25, 15, 10⟩

/-- Substring test on character lists: Python in-operator on strings. -/
def isSubstring (needle : List Char) : List Char → Bool
  | [] => needle.isEmpty
  | c :: rest => needle.isPrefixOf (c :: rest) || isSubstring needle rest

/-- Python: word in description.lower(), for one keyword. -/
def containsWord (desc : String) (w : String) : Bool :=
  isSubstring w.toList (desc.toList.map Char.toLower)

/-- Python: any(word in description for word in words), with description
already lower-cased, as in analyzer.py categorize_weather. -/
def containsAny (desc : String) (words : List String) : Bool :=
  words.any (containsWord desc)

/-- The category that the if-elif chain of categorize_weather (analyzer.py
lines 100-109) assigns to a record. -/
def categoryOf (r : WRec) : String :=
  if containsAny r.description ["clear", "sunny"] then "clear"
  else if containsAny r.description ["rain", "drizzle", "shower"] then "rain"
  else if containsAny r.description ["cloud", "overcast"] then "clouds"
  else if containsAny r.description ["snow", "blizzard"] then "snow"
  else "other"

/-- The mutable dict of city lists built by categorize_weather. -/
structure CatAcc where
  clear : List String
  rain : List String
  clouds : List String
  snow : List String
  other : List String
  deriving DecidableEq, Repr

/-- One iteration of the loop of categorize_weather: append the city of the
record to the list of the first matching category. -/
def catStep (acc : CatAcc) (r : WRec) : CatAcc :=
  if containsAny r.description ["clear", "sunny"] then
    { acc with clear := acc.clear ++ [r.city] }
  else if containsAny r.description ["rain", "drizzle", "shower"] then
    { acc with rain := acc.rain ++ [r.city] }
  else if containsAny r.description ["cloud", "overcast"] then
    { acc with clouds := acc.clouds ++ [r.city] }
  else if containsAny r.description ["snow", "blizzard"] then
    { acc with snow := acc.snow ++ [r.city] }
  else
    { acc with other := acc.other ++ [r.city] }

/-- WeatherAnalyzer.categorize_weather (analyzer.py lines 78-111): the empty
dict for empty data, otherwise the five-key dict in insertion order. -/
def categorize_weather (data : List WRec) : List (String × List String) :=
  if data.isEmpty then []
  else
    let acc := data.foldl catStep ⟨[], [], [], [], []⟩
    [("clear", acc.clear), ("rain", acc.rain), ("clouds", acc.clouds),
     ("snow", acc.snow), ("other", acc.other)]

/-- The bucket that the if-elif cascade of get_temperature_ranges
(analyzer.py lines 149-160) assigns to a temperature. -/
def bucketOf (T : TempRanges) (t : ℚ) : String :=
  if t > T.very_hot then "very_hot"
  else if t > T.hot then "hot"
  else if t > T.warm then "warm"
  else if t > T.moderate then "moderate"
  else if t > T.cool then "cool"
  else "cold"

/-- The mutable dict of city lists built by get_temperature_ranges. -/
structure RangeAcc where
  very_hot : List String
  hot : List String
  warm : List String
  moderate : List String
  cool : List String
  cold : List String
  deriving DecidableEq, Repr

/-- One iteration of the loop of get_temperature_ranges. -/
def rangeStep (T : TempRanges) (acc : RangeAcc) (r : WRec) : RangeAcc :=
  if r.temperature > T.very_hot then
    { acc with very_hot := acc.very_hot ++ [r.city] }
  else if r.temperature > T.hot then
    { acc with hot := acc.hot ++ [r.city] }
  else if r.temperature > T.warm then
    { acc with warm := acc.warm ++ [r.city] }
  else if r.temperature > T.moderate then
    { acc with moderate := acc.moderate ++ [r.city] }
  else if r.temperature > T.cool then
    { acc with cool := acc.cool ++ [r.city] }
  else
    { acc with cold := acc.cold ++ [r.city] }

/-- WeatherAnalyzer.get_temperature_ranges (analyzer.py lines 126-162),
with the imported TEMP_RANGES made an explicit parameter. -/
def get_temperature_ranges (T : TempRanges) (data : List WRec) :
    List (String × List String) :=
  if data.isEmpty then []
  else
    let acc := data.foldl (rangeStep T) ⟨[], [], [], [], [], []⟩
    [("very_hot", acc.very_hot), ("hot", acc.hot), ("warm", acc.warm),
     ("moderate", acc.moderate), ("cool", acc.cool), ("cold", acc.cold)]

/-- The ordered threshold list of the spec: buckets in descending order with
their lower bounds. -/
def thresholdList (T : TempRanges) : List (String × ℚ) :=
  [("very_hot", T.very_hot), ("hot", T.hot), ("warm", T.warm),
   ("moderate", T.moderate), ("cool", T.cool)]

/-- Spec-side bucketing: the first bucket, in the order very_hot, hot, warm,
moderate, cool, whose threshold the temperature strictly exceeds, else cold. -/
def specBucket (T : TempRanges) (t : ℚ) : String :=
  match (thresholdList T).find? (fun p => t > p.2) with
  | some p => p.1
  | none => "cold"

/-- The ordered keyword table of the spec for weather categorization. -/
def keywordTable : List (String × List String) :=
  [("clear", ["clear", "sunny"]), ("rain", ["rain", "drizzle", "shower"]),
   ("clouds", ["cloud", "overcast"]), ("snow", ["snow", "blizzard"])]

/-- Spec-side categorization: first-match-wins over the keyword table in
priority order, with other as the catch-all. -/
def specCategory (desc : String) : String :=
  match keywordTable.find? (fun p => containsAny desc p.2) with
  | some p => p.1
  | none => "other"

theorem categoryOf_eq_specCategory (r : WRec) :
    categoryOf r = specCategory r.description := by
  unfold categoryOf specCategory keywordTable
  by_cases h1 : containsAny r.description ["clear", "sunny"]
  · simp [List.find?, h1]
  · by_cases h2 : containsAny r.description ["rain", "drizzle", "shower"]
    · simp [List.find?, h1, h2]
    · by_cases h3 : containsAny r.description ["cloud", "overcast"]
      · simp [List.find?, h1, h2, h3]
      · by_cases h4 : containsAny r.description ["snow", "blizzard"]
        · simp [List.find?, h1, h2, h3, h4]
        · simp [List.find?, h1, h2, h3, h4]

theorem bucketOf_eq_specBucket (T : TempRanges) (t : ℚ) :
    bucketOf T t = specBucket T t := by
  unfold bucketOf specBucket thresholdList
  by_cases h1 : t > T.very_hot
  · simp [List.find?, h1]
  · by_cases h2 : t > T.hot
    · simp [List.find?, h1, h2]
    · by_cases h3 : t > T.warm
      · simp [List.find?, h1, h2, h3]
      · by_cases h4 : t > T.moderate
        · simp [List.find?, h1, h2, h3, h4]
        · by_cases h5 : t > T.cool
          · simp [List.find?, h1, h2, h3, h4, h5]
          · simp [List.find?, h1, h2, h3, h4, h5]

theorem catFold (data : List WRec) (acc : CatAcc) :
    data.foldl catStep acc =
      ⟨acc.clear ++ (data.filter (fun r => categoryOf r = "clear")).map (·.city),
       acc.rain ++ (data.filter (fun r => categoryOf r = "rain")).map (·.city),
       acc.clouds ++ (data.filter (fun r => categoryOf r = "clouds")).map (·.city),
       acc.snow ++ (data.filter (fun r => categoryOf r = "snow")).map (·.city),
       acc.other ++ (data.filter (fun r => categoryOf r = "other")).map (·.city)⟩ := by
  induction data generalizing acc with
  | nil => simp
  | cons r rest ih =>
    rw [List.foldl_cons, ih]
    by_cases h1 : containsAny r.description ["clear", "sunny"]
    · simp [catStep, categoryOf, h1, List.filter_cons, List.append_assoc]
    · by_cases h2 : containsAny r.description ["rain", "drizzle", "shower"]
      · simp [catStep, categoryOf, h1, h2, List.filter_cons, List.append_assoc]
      · by_cases h3 : containsAny r.description ["cloud", "overcast"]
        · simp [catStep, categoryOf, h1, h2, h3, List.filter_cons, List.append_assoc]
        · by_cases h4 : containsAny r.description ["snow", "blizzard"]
          · simp [catStep, categoryOf, h1, h2, h3, h4, List.filter_cons,
              List.append_assoc]
          · simp [catStep, categoryOf, h1, h2, h3, h4, List.filter_cons,
              List.append_assoc]

theorem rangeFold (T : TempRanges) (data : List WRec) (acc : RangeAcc) :
    data.foldl (rangeStep T) acc =
      ⟨acc.very_hot ++ (data.filter (fun r => bucketOf T r.temperature = "very_hot")).map (·.city),
       acc.hot ++ (data.filter (fun r => bucketOf T r.temperature = "hot")).map (·.city),
       acc.warm ++ (data.filter (fun r => bucketOf T r.temperature = "warm")).map (·.city),
       acc.moderate ++ (data.filter (fun r => bucketOf T r.temperature = "moderate")).map (·.city),
       acc.cool ++ (data.filter (fun r => bucketOf T r.temperature = "cool")).map (·.city),
       acc.cold ++ (data.filter (fun r => bucketOf T r.temperature = "cold")).map (·.city)⟩ := by
  induction data generalizing acc with
  | nil => simp
  | cons r rest ih =>
    rw [List.foldl_cons, ih]
    by_cases h1 : r.temperature > T.very_hot
    · simp [rangeStep, bucketOf, h1, List.filter_cons, List.append_assoc]
    · by_cases h2 : r.temperature > T.hot
      · simp [rangeStep, bucketOf, h1, h2, List.filter_cons, List.append_assoc]
      · by_cases h3 : r.temperature > T.warm
        · simp [rangeStep, bucketOf, h1, h2, h3, List.filter_cons, List.append_assoc]
        · by_cases h4 : r.temperature > T.moderate
          · simp [rangeStep, bucketOf, h1, h2, h3, h4, List.filter_cons,
              List.append_assoc]
          · by_cases h5 : r.temperature > T.cool
            · simp [rangeStep, bucketOf, h1, h2, h3, h4, h5, List.filter_cons,
                List.append_assoc]
            · simp [rangeStep, bucketOf, h1, h2, h3, h4, h5, List.filter_cons,
                List.append_assoc]

/-- C1: for every threshold configuration, every record is placed by
get_temperature_ranges into exactly the first bucket, in the order very_hot,
hot, warm, moderate, cool, whose threshold its temperature strictly exceeds,
and into cold otherwise; with the default thresholds, temperature 35 goes to
hot and temperature 35.1 goes to very_hot. -/
theorem temperature_ranges_descending_cascade (T : TempRanges) (data : List WRec)
    (h : data ≠ []) :
    get_temperature_ranges T data =
      [("very_hot", (data.filter (fun r => specBucket T r.temperature = "very_hot")).map (·.city)),
       ("hot", (data.filter (fun r => specBucket T r.temperature = "hot")).map (·.city)),
       ("warm", (data.filter (fun r => specBucket T r.temperature = "warm")).map (·.city)),
       ("moderate", (data.filter (fun r => specBucket T r.temperature = "moderate")).map (·.city)),
       ("cool", (data.filter (fun r => specBucket T r.temperature = "cool")).map (·.city)),
       ("cold", (data.filter (fun r => specBucket T r.temperature = "cold")).map (·.city))]
    ∧ specBucket TEMP_RANGES 35 = "hot" ∧ specBucket TEMP_RANGES (351/10) = "very_hot" := by
  refine ⟨?_, ?_, ?_⟩
  · unfold get_temperature_ranges
    rw [if_neg (by simpa using h), rangeFold]
    simp only [bucketOf_eq_specBucket, List.nil_append]
  · rw [← bucketOf_eq_specBucket]
    norm_num [bucketOf, TEMP_RANGES]
  · rw [← bucketOf_eq_specBucket]
    norm_num [bucketOf, TEMP_RANGES]

/-- Witness for temperature_ranges_descending_cascade at a one-record input. -/
theorem temperature_ranges_descending_cascade_witness :
    get_temperature_ranges TEMP_RANGES [⟨"A", 35, 50, "Clear Sky", 3, "GB", "t"⟩] =
      [("very_hot", []), ("hot", ["A"]), ("warm", []), ("moderate", []),
       ("cool", []), ("cold", [])] := by
  have h := temperature_ranges_descending_cascade TEMP_RANGES
    [⟨"A", 35, 50, "Clear Sky", 3, "GB", "t"⟩] (List.cons_ne_nil _ _)
  rw [h.1]
  simp [List.filter_cons, h.2.1]

/-- C2: categorize_weather classifies each record by first-match-wins over
the priority order clear, rain, clouds, snow, other, a category matching iff
the lower-cased description contains one of its keywords as a substring; in
particular a description of cloudy with rain is classified as rain. -/
theorem categorize_weather_first_match (data : List WRec) (h : data ≠ []) :
    categorize_weather data =
      [("clear", (data.filter (fun r => specCategory r.description = "clear")).map (·.city)),
       ("rain", (data.filter (fun r => specCategory r.description = "rain")).map (·.city)),
       ("clouds", (data.filter (fun r => specCategory r.description = "clouds")).map (·.city)),
       ("snow", (data.filter (fun r => specCategory r.description = "snow")).map (·.city)),
       ("other", (data.filter (fun r => specCategory r.description = "other")).map (·.city))]
    ∧ specCategory "cloudy with rain" = "rain" := by
  refine ⟨?_, by decide⟩
  unfold categorize_weather
  rw [if_neg (by simpa using h), catFold]
  simp only [categoryOf_eq_specCategory, List.nil_append]

/-- Witness for categorize_weather_first_match at a one-record input. -/
theorem categorize_weather_first_match_witness :
    categorize_weather [⟨"A", 20, 50, "cloudy with rain", 3, "GB", "t"⟩] =
      [("clear", []), ("rain", ["A"]), ("clouds", []), ("snow", []),
       ("other", [])] := by
  have h := categorize_weather_first_match
    [⟨"A", 20, 50, "cloudy with rain", 3, "GB", "t"⟩] (List.cons_ne_nil _ _)
  rw [h.1]
  simp [List.filter_cons, h.2]

/-- C10: for non-empty input, categorize_weather carries exactly the five
category keys and get_temperature_ranges exactly the six range keys, in
insertion order; a bucket with no matching city is present with an empty
list. -/
theorem result_keys_always_present (T : TempRanges) (data : List WRec)
    (h : data ≠ []) :
    (categorize_weather data).map Prod.fst =
      ["clear", "rain", "clouds", "snow", "other"]
    ∧ (get_temperature_ranges T data).map Prod.fst =
      ["very_hot", "hot", "warm", "moderate", "cool", "cold"] := by
  constructor
  · unfold categorize_weather
    rw [if_neg (by simpa using h)]
    simp
  · unfold get_temperature_ranges
    rw [if_neg (by simpa using h)]
    simp

/-- Witness for result_keys_always_present at a one-record input. -/
theorem result_keys_always_present_witness :
    (categorize_weather [⟨"A", 20, 50, "Mist", 3, "GB", "t"⟩]).map Prod.fst =
      ["clear", "rain", "clouds", "snow", "other"] :=
  (result_keys_always_present TEMP_RANGES [⟨"A", 20, 50, "Mist", 3, "GB", "t"⟩]
    (List.cons_ne_nil _ _)).1

/-- Maximum of a column, as pandas Series.max: none on an empty column. -/
def seriesMax {γ : Type} [LinearOrder γ] : List γ → Option γ
  | [] => none
  | x :: rest =>
    match seriesMax rest with
    | none => some x
    | some m => some (max x m)

/-- Minimum of a column, as pandas Series.min: none on an empty column. -/
def seriesMin {γ : Type} [LinearOrder γ] : List γ → Option γ
  | [] => none
  | x :: rest =>
    match seriesMin rest with
    | none => some x
    | some m => some (min x m)

theorem seriesMax_eq_none_iff {γ : Type} [LinearOrder γ] (l : List γ) :
    seriesMax l = none ↔ l = [] := by
  cases l with
  | nil => simp [seriesMax]
  | cons x rest =>
    simp only [seriesMax]
    cases h : seriesMax rest <;> simp

theorem seriesMin_eq_none_iff {γ : Type} [LinearOrder γ] (l : List γ) :
    seriesMin l = none ↔ l = [] := by
  cases l with
  | nil => simp [seriesMin]
  | cons x rest =>
    simp only [seriesMin]
    cases h : seriesMin rest <;> simp

theorem seriesMax_mem {γ : Type} [LinearOrder γ] :
    ∀ {l : List γ} {m : γ}, seriesMax l = some m → m ∈ l := by
  intro l
  induction l with
  | nil => intro m h; simp [seriesMax] at h
  | cons x rest ih =>
    intro m h
    simp only [seriesMax] at h
    cases hr : seriesMax rest with
    | none => rw [hr] at h; simp at h; simp [h]
    | some m' =>
      rw [hr] at h
      simp at h
      rcases max_choice x m' with hc | hc
      · rw [hc] at h; simp [← h]
      · rw [hc] at h
        subst h
        exact List.mem_cons_of_mem _ (ih hr)

theorem seriesMin_mem {γ : Type} [LinearOrder γ] :
    ∀ {l : List γ} {m : γ}, seriesMin l = some m → m ∈ l := by
  intro l
  induction l with
  | nil => intro m h; simp [seriesMin] at h
  | cons x rest ih =>
    intro m h
    simp only [seriesMin] at h
    cases hr : seriesMin rest with
    | none => rw [hr] at h; simp at h; simp [h]
    | some m' =>
      rw [hr] at h
      simp at h
      rcases min_choice x m' with hc | hc
      · rw [hc] at h; simp [← h]
      · rw [hc] at h
        subst h
        exact List.mem_cons_of_mem _ (ih hr)

theorem le_seriesMax {γ : Type} [LinearOrder γ] :
    ∀ {l : List γ} {x m : γ}, x ∈ l → seriesMax l = some m → x ≤ m := by
  intro l
  induction l with
  | nil => intro x m hx; simp at hx
  | cons y rest ih =>
    intro x m hx h
    simp only [seriesMax] at h
    cases hr : seriesMax rest with
    | none =>
      rw [hr] at h
      simp at h
      rcases List.mem_cons.mp hx with hxy | hxr
      · rw [hxy, ← h]
      · rw [(seriesMax_eq_none_iff rest).mp hr] at hxr; simp at hxr
    | some m' =>
      rw [hr] at h
      simp at h
      subst h
      rcases List.mem_cons.mp hx with hxy | hxr
      · rw [hxy]; exact le_max_left _ _
      · exact le_trans (ih hxr hr) (le_max_right _ _)

theorem seriesMin_le {γ : Type} [LinearOrder γ] :
    ∀ {l : List γ} {x m : γ}, x ∈ l → seriesMin l = some m → m ≤ x := by
  intro l
  induction l with
  | nil => intro x m hx; simp at hx
  | cons y rest ih =>
    intro x m hx h
    simp only [seriesMin] at h
    cases hr : seriesMin rest with
    | none =>
      rw [hr] at h
      simp at h
      rcases List.mem_cons.mp hx with hxy | hxr
      · rw [hxy, ← h]
      · rw [(seriesMin_eq_none_iff rest).mp hr] at hxr; simp at hxr
    | some m' =>
      rw [hr] at h
      simp at h
      subst h
      rcases List.mem_cons.mp hx with hxy | hxr
      · rw [hxy]; exact min_le_left _ _
      · exact le_trans (min_le_right _ _) (ih hxr hr)

/-- The scan behind pandas Series.idxmax: keep the current best, replacing it
only on a strictly greater value, so ties keep the earlier row. -/
def scanMax {β γ : Type} [LinearOrder γ] (f : β → γ) : List β → β → β
  | [], best => best
  | x :: rest, best => scanMax f rest (if f x > f best then x else best)

/-- The scan behind pandas Series.idxmin. -/
def scanMin {β γ : Type} [LinearOrder γ] (f : β → γ) : List β → β → β
  | [], best => best
  | x :: rest, best => scanMin f rest (if f x < f best then x else best)

/-- The row that data.loc of self.data at idxmax of a column selects. -/
def firstMaxBy {β γ : Type} [LinearOrder γ] (f : β → γ) : List β → Option β
  | [] => none
  | x :: rest => some (scanMax f rest x)

/-- The row that data.loc of self.data at idxmin of a column selects. -/
def firstMinBy {β γ : Type} [LinearOrder γ] (f : β → γ) : List β → Option β
  | [] => none
  | x :: rest => some (scanMin f rest x)

theorem seriesMax_map_scanMax {β γ : Type} [LinearOrder γ] (f : β → γ) :
    ∀ (l : List β) (best : β),
      seriesMax ((best :: l).map f) = some (f (scanMax f l best)) := by
  intro l
  induction l with
  | nil => intro best; simp [seriesMax, scanMax]
  | cons x rest ih =>
    intro best
    have hb : f (if f x > f best then x else best) = max (f best) (f x) := by
      split
      · rename_i hgt
        exact (max_eq_right (le_of_lt hgt)).symm
      · rename_i hle
        exact (max_eq_left (le_of_not_lt hle)).symm
    have hcons : seriesMax ((best :: x :: rest).map f) =
        seriesMax ((max (f best) (f x)) :: rest.map f) := by
      simp only [List.map_cons, seriesMax]
      cases hr : seriesMax (rest.map f) with
      | none => simp
      | some m => simp [max_assoc]
    rw [hcons, ← hb]
    have := ih (if f x > f best then x else best)
    simp only [List.map_cons, scanMax] at this ⊢
    exact this

theorem seriesMin_map_scanMin {β γ : Type} [LinearOrder γ] (f : β → γ) :
    ∀ (l : List β) (best : β),
      seriesMin ((best :: l).map f) = some (f (scanMin f l best)) := by
  intro l
  induction l with
  | nil => intro best; simp [seriesMin, scanMin]
  | cons x rest ih =>
    intro best
    have hb : f (if f x < f best then x else best) = min (f best) (f x) := by
      split
      · rename_i hlt
        exact (min_eq_right (le_of_lt hlt)).symm
      · rename_i hle
        exact (min_eq_left (le_of_not_lt hle)).symm
    have hcons : seriesMin ((best :: x :: rest).map f) =
        seriesMin ((min (f best) (f x)) :: rest.map f) := by
      simp only [List.map_cons, seriesMin]
      cases hr : seriesMin (rest.map f) with
      | none => simp
      | some m => simp [min_assoc]
    rw [hcons, ← hb]
    have := ih (if f x < f best then x else best)
    simp only [List.map_cons, scanMin] at this ⊢
    exact this

theorem scanMax_first_attains {β γ : Type} [LinearOrder γ] (f : β → γ) :
    ∀ (l : List β) (best : β),
      (best :: l).find? (fun y => decide (f y = f (scanMax f l best))) =
        some (scanMax f l best) := by
  intro l
  induction l with
  | nil =>
    intro best
    simp [scanMax, List.find?]
  | cons x rest ih =>
    intro best
    by_cases hgt : f x > f best
    · have hscan : scanMax f (x :: rest) best = scanMax f rest x := by
        simp [scanMax, hgt]
      rw [hscan]
      have hmaxR : seriesMax ((x :: rest).map f) =
          some (f (scanMax f rest x)) := seriesMax_map_scanMax f rest x
      have hxle : f x ≤ f (scanMax f rest x) := le_seriesMax (by simp) hmaxR
      have hbestlt : f best < f (scanMax f rest x) := lt_of_lt_of_le hgt hxle
      rw [List.find?_cons_of_neg _ (by simp [ne_of_lt hbestlt])]
      exact ih x
    · have hscan : scanMax f (x :: rest) best = scanMax f rest best := by
        simp [scanMax, hgt]
      rw [hscan]
      have ihb := ih best
      have hmaxR : seriesMax ((best :: rest).map f) =
          some (f (scanMax f rest best)) := seriesMax_map_scanMax f rest best
      have hble : f best ≤ f (scanMax f rest best) :=
        le_seriesMax (by simp) hmaxR
      by_cases heq : f best = f (scanMax f rest best)
      · rw [List.find?_cons_of_pos _ (by simp [heq])]
        have hh : (best :: rest).find?
            (fun y => decide (f y = f (scanMax f rest best))) = some best :=
          List.find?_cons_of_pos _ (by simp [heq])
        rw [hh] at ihb
        exact ihb
      · have hbestlt : f best < f (scanMax f rest best) :=
          lt_of_le_of_ne hble heq
        have hxlt : f x < f (scanMax f rest best) :=
          lt_of_le_of_lt (le_of_not_lt hgt) hbestlt
        rw [List.find?_cons_of_neg _ (by simp [heq])] at ihb
        rw [List.find?_cons_of_neg _ (by simp [ne_of_lt hbestlt]),
          List.find?_cons_of_neg _ (by simp [ne_of_lt hxlt])]
        exact ihb

theorem scanMin_first_attains {β γ : Type} [LinearOrder γ] (f : β → γ) :
    ∀ (l : List β) (best : β),
      (best :: l).find? (fun y => decide (f y = f (scanMin f l best))) =
        some (scanMin f l best) := by
  intro l
  induction l with
  | nil =>
    intro best
    simp [scanMin, List.find?]
  | cons x rest ih =>
    intro best
    by_cases hlt : f x < f best
    · have hscan : scanMin f (x :: rest) best = scanMin f rest x := by
        simp [scanMin, hlt]
      rw [hscan]
      have hminR : seriesMin ((x :: rest).map f) =
          some (f (scanMin f rest x)) := seriesMin_map_scanMin f rest x
      have hxge : f (scanMin f rest x) ≤ f x := seriesMin_le (by simp) hminR
      have hbestgt : f (scanMin f rest x) < f best := lt_of_le_of_lt hxge hlt
      rw [List.find?_cons_of_neg _ (by simp [(ne_of_lt hbestgt).symm])]
      exact ih x
    · have hscan : scanMin f (x :: rest) best = scanMin f rest best := by
        simp [scanMin, hlt]
      rw [hscan]
      have ihb := ih best
      have hminR : seriesMin ((best :: rest).map f) =
          some (f (scanMin f rest best)) := seriesMin_map_scanMin f rest best
      have hble : f (scanMin f rest best) ≤ f best :=
        seriesMin_le (by simp) hminR
      by_cases heq : f best = f (scanMin f rest best)
      · rw [List.find?_cons_of_pos _ (by simp [heq])]
        have hh : (best :: rest).find?
            (fun y => decide (f y = f (scanMin f rest best))) = some best :=
          List.find?_cons_of_pos _ (by simp [heq])
        rw [hh] at ihb
        exact ihb
      · have hbestgt : f (scanMin f rest best) < f best :=
          lt_of_le_of_ne hble (fun hc => heq hc.symm)
        have hxgt : f (scanMin f rest best) < f x :=
          lt_of_lt_of_le hbestgt (le_of_not_lt hlt)
        rw [List.find?_cons_of_neg _ (by simp [heq])] at ihb
        rw [List.find?_cons_of_neg _ (by simp [(ne_of_lt hbestgt).symm]),
          List.find?_cons_of_neg _ (by simp [(ne_of_lt hxgt).symm])]
        exact ihb

/-- Python round(x) on the value of a statistic: round-half-to-even to the
nearest integer, the rounding mode of the host runtime named by the spec. -/
def roundHalfEven (q : ℚ) : ℤ :=
  if Int.fract q < 1/2 then ⌊q⌋
  else if 1/2 < Int.fract q then ⌊q⌋ + 1
  else if ⌊q⌋ % 2 = 0 then ⌊q⌋ else ⌊q⌋ + 1

theorem roundHalfEven_ge_floor (q : ℚ) : ⌊q⌋ ≤ roundHalfEven q := by
  unfold roundHalfEven
  split_ifs <;> omega

theorem roundHalfEven_le_floor_add_one (q : ℚ) : roundHalfEven q ≤ ⌊q⌋ + 1 := by
  unfold roundHalfEven
  split_ifs <;> omega

theorem roundHalfEven_intCast (k : ℤ) : roundHalfEven (k : ℚ) = k := by
  unfold roundHalfEven
  rw [Int.fract_intCast, Int.floor_intCast]
  norm_num

theorem roundHalfEven_mono {a b : ℚ} (hab : a ≤ b) :
    roundHalfEven a ≤ roundHalfEven b := by
  rcases lt_or_eq_of_le (Int.floor_le_floor hab) with hlt | heq
  · have h1 := roundHalfEven_le_floor_add_one a
    have h2 := roundHalfEven_ge_floor b
    omega
  · have hf : Int.fract a ≤ Int.fract b := by
      simp only [Int.fract]
      rw [← heq]
      linarith
    by_cases ha1 : Int.fract a < 1/2
    · have e1 : roundHalfEven a = ⌊a⌋ := by
        unfold roundHalfEven
        rw [if_pos ha1]
      have h2 := roundHalfEven_ge_floor b
      omega
    · by_cases ha2 : 1/2 < Int.fract a
      · have hb2 : 1/2 < Int.fract b := lt_of_lt_of_le ha2 hf
        have e1 : roundHalfEven a = ⌊a⌋ + 1 := by
          unfold roundHalfEven
          rw [if_neg ha1, if_pos ha2]
        have e2 : roundHalfEven b = ⌊b⌋ + 1 := by
          unfold roundHalfEven
          rw [if_neg (by linarith), if_pos hb2]
        omega
      · have hfa : Int.fract a = 1/2 :=
          le_antisymm (le_of_not_lt ha2) (le_of_not_lt ha1)
        by_cases hb2 : 1/2 < Int.fract b
        · have e2 : roundHalfEven b = ⌊b⌋ + 1 := by
            unfold roundHalfEven
            rw [if_neg (by linarith), if_pos hb2]
          have e1 := roundHalfEven_le_floor_add_one a
          omega
        · have hfb : Int.fract b = 1/2 :=
            le_antisymm (le_of_not_lt hb2) (hfa ▸ hf)
          have hab2 : a = b := by
            have ea : (⌊a⌋ : ℚ) + Int.fract a = a := Int.floor_add_fract a
            have eb : (⌊b⌋ : ℚ) + Int.fract b = b := Int.floor_add_fract b
            rw [← ea, ← eb, hfa, hfb, heq]
          rw [hab2]

/-- Python round(x, 1): round to one decimal place, half to even. -/
def round1 (q : ℚ) : ℚ := (roundHalfEven (q * 10) : ℚ) / 10

theorem round1_mono {a b : ℚ} (h : a ≤ b) : round1 a ≤ round1 b := by
  unfold round1
  have h10 : a * 10 ≤ b * 10 := by linarith
  have hz := roundHalfEven_mono h10
  have hc : ((roundHalfEven (a * 10) : ℤ) : ℚ) ≤
      ((roundHalfEven (b * 10) : ℤ) : ℚ) := by exact_mod_cast hz
  linarith

theorem round1_tenth (k : ℤ) : round1 ((k : ℚ) / 10) = (k : ℚ) / 10 := by
  unfold round1
  have hk : ((k : ℚ) / 10) * 10 = (k : ℚ) := by field_simp
  rw [hk, roundHalfEven_intCast]

/-- Mean of a column, as pandas Series.mean on a non-empty column. -/
def seriesMean (xs : List ℚ) : ℚ := xs.sum / xs.length

theorem seriesMean_le_max (xs : List ℚ) (M : ℚ) (h : seriesMax xs = some M) :
    seriesMean xs ≤ M := by
  have hne : xs ≠ [] := by
    intro hx
    rw [hx] at h
    simp [seriesMax] at h
  have hlen : 0 < (xs.length : ℚ) := by
    have : 0 < xs.length := List.length_pos.mpr hne
    exact_mod_cast this
  have hsum : xs.sum ≤ xs.length • M :=
    List.sum_le_card_nsmul xs M (fun x hx => le_seriesMax hx h)
  rw [nsmul_eq_mul] at hsum
  unfold seriesMean
  rw [div_le_iff₀ hlen]
  linarith

theorem min_le_seriesMean (xs : List ℚ) (m : ℚ) (h : seriesMin xs = some m) :
    m ≤ seriesMean xs := by
  have hne : xs ≠ [] := by
    intro hx
    rw [hx] at h
    simp [seriesMin] at h
  have hlen : 0 < (xs.length : ℚ) := by
    have : 0 < xs.length := List.length_pos.mpr hne
    exact_mod_cast this
  have hsum : xs.length • m ≤ xs.sum :=
    List.card_nsmul_le_sum xs m (fun x hx => seriesMin_le hx h)
  rw [nsmul_eq_mul] at hsum
  unfold seriesMean
  rw [le_div_iff₀ hlen]
  linarith

/-- Median of a column, as pandas Series.median: middle element of the
sorted values, or the mean of the two middle elements for even length. -/
def seriesMedian (xs : List ℚ) : ℚ :=
  if xs.length % 2 = 1 then (List.insertionSort (· ≤ ·) xs).getD (xs.length / 2) 0
  else ((List.insertionSort (· ≤ ·) xs).getD (xs.length / 2 - 1) 0 +
        (List.insertionSort (· ≤ ·) xs).getD (xs.length / 2) 0) / 2

theorem seriesMedian_bounds (xs : List ℚ) (hne : xs ≠ []) (m M : ℚ)
    (hm : seriesMin xs = some m) (hM : seriesMax xs = some M) :
    m ≤ seriesMedian xs ∧ seriesMedian xs ≤ M := by
  have hperm := List.perm_insertionSort (· ≤ ·) xs
  have hlen : (List.insertionSort (· ≤ ·) xs).length = xs.length :=
    hperm.length_eq
  have hpos : 0 < xs.length := List.length_pos.mpr hne
  have hget : ∀ i, i < xs.length →
      m ≤ (List.insertionSort (· ≤ ·) xs).getD i 0 ∧
      (List.insertionSort (· ≤ ·) xs).getD i 0 ≤ M := by
    intro i hi
    have hi' : i < (List.insertionSort (· ≤ ·) xs).length := by
      rw [hlen]
      exact hi
    rw [List.getD_eq_getElem _ _ hi']
    have hmem : (List.insertionSort (· ≤ ·) xs)[i] ∈ xs :=
      hperm.mem_iff.mp (List.getElem_mem hi')
    exact ⟨seriesMin_le hmem hm, le_seriesMax hmem hM⟩
  unfold seriesMedian
  by_cases hodd : xs.length % 2 = 1
  · rw [if_pos hodd]
    exact hget _ (by omega)
  · rw [if_neg hodd]
    have h1 := hget (xs.length / 2 - 1) (by omega)
    have h2 := hget (xs.length / 2) (by omega)
    constructor
    · linarith [h1.1, h2.1]
    · linarith [h1.2, h2.2]

/-- The dict returned by get_temperature_stats for non-empty data. -/
structure TempStats where
  highest_temp : ℚ
  lowest_temp : ℚ
  average_temp : ℚ
  median_temp : ℚ
  highest_temp_city : String
  lowest_temp_city : String
  deriving DecidableEq, Repr

/-- WeatherAnalyzer.get_temperature_stats (analyzer.py lines 16-40); none
models the empty dict returned for empty data. -/
def get_temperature_stats (data : List WRec) : Option TempStats :=
  if data.isEmpty then none
  else
    some {
      highest_temp := (seriesMax (data.map (·.temperature))).getD 0
      lowest_temp := (seriesMin (data.map (·.temperature))).getD 0
      average_temp := round1 (seriesMean (data.map (·.temperature)))
      median_temp := round1 (seriesMedian (data.map (·.temperature)))
      highest_temp_city := ((firstMaxBy (·.temperature) data).map (·.city)).getD ""
      lowest_temp_city := ((firstMinBy (·.temperature) data).map (·.city)).getD "" }

/-- The dict returned by get_humidity_stats for non-empty data. -/
structure HumidityStats where
  highest_humidity : ℤ
  lowest_humidity : ℤ
  average_humidity : ℚ
  highest_humidity_city : String
  lowest_humidity_city : String
  deriving DecidableEq, Repr

/-- WeatherAnalyzer.get_humidity_stats (analyzer.py lines 42-58); none models
the empty dict returned for empty data. -/
def get_humidity_stats (data : List WRec) : Option HumidityStats :=
  if data.isEmpty then none
  else
    some {
      highest_humidity := (seriesMax (data.map (·.humidity))).getD 0
      lowest_humidity := (seriesMin (data.map (·.humidity))).getD 0
      average_humidity := round1 (((data.map (·.humidity)).sum : ℚ) / (data.length : ℚ))
      highest_humidity_city := ((firstMaxBy (·.humidity) data).map (·.city)).getD ""
      lowest_humidity_city := ((firstMinBy (·.humidity) data).map (·.city)).getD "" }

/-- The dict returned by get_wind_stats for non-empty data. -/
structure WindStats where
  highest_wind : ℚ
  lowest_wind : ℚ
  average_wind : ℚ
  highest_wind_city : String
  lowest_wind_city : String
  deriving DecidableEq, Repr

/-- WeatherAnalyzer.get_wind_stats (analyzer.py lines 60-76); none models
the empty dict returned for empty data. -/
def get_wind_stats (data : List WRec) : Option WindStats :=
  if data.isEmpty then none
  else
    some {
      highest_wind := (seriesMax (data.map (·.wind_speed))).getD 0
      lowest_wind := (seriesMin (data.map (·.wind_speed))).getD 0
      average_wind := round1 (seriesMean (data.map (·.wind_speed)))
      highest_wind_city := ((firstMaxBy (·.wind_speed) data).map (·.city)).getD ""
      lowest_wind_city := ((firstMinBy (·.wind_speed) data).map (·.city)).getD "" }

theorem find_firstMax {γ : Type} [LinearOrder γ] (f : WRec → γ) (x : WRec)
    (rest : List WRec) (d : γ) :
    (x :: rest).find? (fun r => decide (f r = (seriesMax ((x :: rest).map f)).getD d)) =
      firstMaxBy f (x :: rest) := by
  rw [seriesMax_map_scanMax f rest x]
  simp only [Option.getD_some, firstMaxBy]
  exact scanMax_first_attains f rest x

theorem find_firstMin {γ : Type} [LinearOrder γ] (f : WRec → γ) (x : WRec)
    (rest : List WRec) (d : γ) :
    (x :: rest).find? (fun r => decide (f r = (seriesMin ((x :: rest).map f)).getD d)) =
      firstMinBy f (x :: rest) := by
  rw [seriesMin_map_scanMin f rest x]
  simp only [Option.getD_some, firstMinBy]
  exact scanMin_first_attains f rest x

/-- C3: in every stats dict the extremal-city attribution is the city of the
first record in input order attaining the extremal value of the relevant
field, for temperature, humidity and wind alike; in particular for records
A and B both at temperature 30 the highest temperature city is A. -/
theorem extremal_city_first_occurrence (data : List WRec) (h : data ≠ []) :
    (∃ ts, get_temperature_stats data = some ts ∧
      (data.find? (fun r => decide (r.temperature = ts.highest_temp))).map (·.city) =
        some ts.highest_temp_city ∧
      (data.find? (fun r => decide (r.temperature = ts.lowest_temp))).map (·.city) =
        some ts.lowest_temp_city)
    ∧ (∃ hs, get_humidity_stats data = some hs ∧
      (data.find? (fun r => decide (r.humidity = hs.highest_humidity))).map (·.city) =
        some hs.highest_humidity_city ∧
      (data.find? (fun r => decide (r.humidity = hs.lowest_humidity))).map (·.city) =
        some hs.lowest_humidity_city)
    ∧ (∃ ws, get_wind_stats data = some ws ∧
      (data.find? (fun r => decide (r.wind_speed = ws.highest_wind))).map (·.city) =
        some ws.highest_wind_city ∧
      (data.find? (fun r => decide (r.wind_speed = ws.lowest_wind))).map (·.city) =
        some ws.lowest_wind_city)
    ∧ (∃ ts, get_temperature_stats
        [⟨"A", 30, 50, "x", 3, "GB", "t"⟩, ⟨"B", 30, 50, "x", 3, "GB", "t"⟩] = some ts ∧
        ts.highest_temp_city = "A") := by
  obtain ⟨x, rest, rfl⟩ := List.exists_cons_of_ne_nil h
  refine ⟨⟨_, rfl, ?_, ?_⟩, ⟨_, rfl, ?_, ?_⟩, ⟨_, rfl, ?_, ?_⟩, ⟨_, rfl, ?_⟩⟩
  · dsimp only
    rw [find_firstMax (·.temperature) x rest 0]
    simp [firstMaxBy]
  · dsimp only
    rw [find_firstMin (·.temperature) x rest 0]
    simp [firstMinBy]
  · dsimp only
    rw [find_firstMax (·.humidity) x rest 0]
    simp [firstMaxBy]
  · dsimp only
    rw [find_firstMin (·.humidity) x rest 0]
    simp [firstMinBy]
  · dsimp only
    rw [find_firstMax (·.wind_speed) x rest 0]
    simp [firstMaxBy]
  · dsimp only
    rw [find_firstMin (·.wind_speed) x rest 0]
    simp [firstMinBy]
  · dsimp only
    simp [firstMaxBy, scanMax, lt_irrefl]

/-- Witness for extremal_city_first_occurrence: the tie-break example with
two records at temperature 30. -/
theorem extremal_city_first_occurrence_witness :
    ∃ ts, get_temperature_stats
      [⟨"A", 30, 50, "x", 3, "GB", "t"⟩, ⟨"B", 30, 50, "x", 3, "GB", "t"⟩] = some ts ∧
      ts.highest_temp_city = "A" :=
  (extremal_city_first_occurrence [⟨"A", 30, 50, "x", 3, "GB", "t"⟩]
    (List.cons_ne_nil _ _)).2.2.2

/-- C6 amended: for every non-empty RecordSet whose temperatures are exact
multiples of one tenth (the granularity the fetch layer produces), the
temperature stats satisfy lowest less-or-equal average and median, both
less-or-equal highest.  Without the granularity restriction the rounding of
the average to one decimal can leave the interval, see the counterexample. -/
theorem temperature_stats_bounds (data : List WRec) (h : data ≠ [])
    (hg : ∀ r ∈ data, ∃ k : ℤ, r.temperature = (k : ℚ) / 10) :
    ∃ ts, get_temperature_stats data = some ts ∧
      ts.lowest_temp ≤ ts.average_temp ∧ ts.average_temp ≤ ts.highest_temp ∧
      ts.lowest_temp ≤ ts.median_temp ∧ ts.median_temp ≤ ts.highest_temp := by
  obtain ⟨x, rest, rfl⟩ := List.exists_cons_of_ne_nil h
  have hne : (x :: rest).map (·.temperature) ≠ [] := by simp
  obtain ⟨M, hM⟩ : ∃ M, seriesMax ((x :: rest).map (·.temperature)) = some M := by
    cases hs : seriesMax ((x :: rest).map (·.temperature)) with
    | none => exact absurd ((seriesMax_eq_none_iff _).mp hs) hne
    | some M => exact ⟨M, rfl⟩
  obtain ⟨m, hm⟩ : ∃ m, seriesMin ((x :: rest).map (·.temperature)) = some m := by
    cases hs : seriesMin ((x :: rest).map (·.temperature)) with
    | none => exact absurd ((seriesMin_eq_none_iff _).mp hs) hne
    | some m => exact ⟨m, rfl⟩
  obtain ⟨kM, hkM⟩ : ∃ k : ℤ, M = (k : ℚ) / 10 := by
    have := seriesMax_mem hM
    simp only [List.mem_map] at this
    obtain ⟨r, hr, hrM⟩ := this
    obtain ⟨k, hk⟩ := hg r hr
    exact ⟨k, by rw [← hrM, hk]⟩
  obtain ⟨km, hkm⟩ : ∃ k : ℤ, m = (k : ℚ) / 10 := by
    have := seriesMin_mem hm
    simp only [List.mem_map] at this
    obtain ⟨r, hr, hrm⟩ := this
    obtain ⟨k, hk⟩ := hg r hr
    exact ⟨k, by rw [← hrm, hk]⟩
  have havg_le : round1 (seriesMean ((x :: rest).map (·.temperature))) ≤ M := by
    have h1 := round1_mono (seriesMean_le_max _ M hM)
    rwa [hkM, round1_tenth, ← hkM] at h1
  have hle_avg : m ≤ round1 (seriesMean ((x :: rest).map (·.temperature))) := by
    have h1 := round1_mono (min_le_seriesMean _ m hm)
    rwa [hkm, round1_tenth, ← hkm] at h1
  have hmedb := seriesMedian_bounds _ hne m M hm hM
  have hmed_le : round1 (seriesMedian ((x :: rest).map (·.temperature))) ≤ M := by
    have h1 := round1_mono hmedb.2
    rwa [hkM, round1_tenth, ← hkM] at h1
  have hle_med : m ≤ round1 (seriesMedian ((x :: rest).map (·.temperature))) := by
    have h1 := round1_mono hmedb.1
    rwa [hkm, round1_tenth, ← hkm] at h1
  refine ⟨_, rfl, ?_, ?_, ?_, ?_⟩
  · show (seriesMin ((x :: rest).map (·.temperature))).getD 0 ≤
      round1 (seriesMean ((x :: rest).map (·.temperature)))
    rw [hm]
    simpa using hle_avg
  · show round1 (seriesMean ((x :: rest).map (·.temperature))) ≤
      (seriesMax ((x :: rest).map (·.temperature))).getD 0
    rw [hM]
    simpa using havg_le
  · show (seriesMin ((x :: rest).map (·.temperature))).getD 0 ≤
      round1 (seriesMedian ((x :: rest).map (·.temperature)))
    rw [hm]
    simpa using hle_med
  · show round1 (seriesMedian ((x :: rest).map (·.temperature))) ≤
      (seriesMax ((x :: rest).map (·.temperature))).getD 0
    rw [hM]
    simpa using hmed_le

/-- Witness for temperature_stats_bounds at a concrete two-record input on
the one-decimal grid. -/
theorem temperature_stats_bounds_witness :
    ∃ ts, get_temperature_stats
      [⟨"A", 21/10, 50, "x", 3, "GB", "t"⟩, ⟨"B", 7/10, 60, "y", 4, "FR", "t"⟩] = some ts ∧
      ts.lowest_temp ≤ ts.average_temp ∧ ts.average_temp ≤ ts.highest_temp ∧
      ts.lowest_temp ≤ ts.median_temp ∧ ts.median_temp ≤ ts.highest_temp :=
  temperature_stats_bounds
    [⟨"A", 21/10, 50, "x", 3, "GB", "t"⟩, ⟨"B", 7/10, 60, "y", 4, "FR", "t"⟩]
    (List.cons_ne_nil _ _)
    (by
      intro r hr
      rcases List.mem_cons.mp hr with h1 | hr2
      · exact ⟨21, by rw [h1]; norm_num⟩
      · rcases List.mem_cons.mp hr2 with h2 | h3
        · exact ⟨7, by rw [h2]; norm_num⟩
        · simp at h3)

/-- C6 counterexample: a single record with temperature 0.06 has its average
rounded to 0.1, which strictly exceeds the unrounded highest 0.06; so the
claimed inequalities fail for temperatures off the one-decimal grid. -/
theorem temperature_stats_bounds_counterexample :
    ∃ ts, get_temperature_stats [⟨"A", 3/50, 50, "x", 3, "GB", "t"⟩] = some ts ∧
      ts.highest_temp < ts.average_temp := by
  refine ⟨_, rfl, ?_⟩
  show (seriesMax (List.map (·.temperature) [(⟨"A", 3/50, 50, "x", 3, "GB", "t"⟩ : WRec)])).getD 0 <
    round1 (seriesMean (List.map (·.temperature) [(⟨"A", 3/50, 50, "x", 3, "GB", "t"⟩ : WRec)]))
  have hmap : List.map (·.temperature) [(⟨"A", 3/50, 50, "x", 3, "GB", "t"⟩ : WRec)] =
      [(3/50 : ℚ)] := rfl
  have hmax : seriesMax [(3/50 : ℚ)] = some (3/50) := rfl
  have hmean : seriesMean [(3/50 : ℚ)] = 3/50 := by
    unfold seriesMean
    norm_num
  have hfl : ⌊(3/5 : ℚ)⌋ = 0 := by
    rw [Int.floor_eq_iff]
    norm_num
  have hfr : Int.fract (3/5 : ℚ) = 3/5 := by
    simp only [Int.fract]
    rw [hfl]
    norm_num
  have hrhe : roundHalfEven (3/5 : ℚ) = 1 := by
    unfold roundHalfEven
    rw [hfr, hfl]
    norm_num
  have hr1 : round1 (3/50 : ℚ) = 1/10 := by
    unfold round1
    have h10 : (3/50 : ℚ) * 10 = 3/5 := by norm_num
    rw [h10, hrhe]
    norm_num
  rw [hmap, hmax, hmean, hr1]
  norm_num

/-- One update of collections.Counter: increment the count of a key if
present, else append it with count 1; insertion order of first occurrences
is preserved, as for Python dicts. -/
def counterAdd (d : String) : List (String × ℕ) → List (String × ℕ)
  | [] => [(d, 1)]
  | (k, n) :: rest => if k = d then (k, n + 1) :: rest else (k, n) :: counterAdd d rest

/-- collections.Counter built over a list of strings. -/
def counterOf (xs : List String) : List (String × ℕ) :=
  xs.foldl (fun acc d => counterAdd d acc) []

/-- One insertion of the stable descending sort behind Counter.most_common
(Python sorted with reverse True is stable): a new entry moves ahead only of
entries with a strictly smaller count. -/
def mcInsert (p : String × ℕ) : List (String × ℕ) → List (String × ℕ)
  | [] => [p]
  | q :: rest => if p.2 > q.2 then p :: q :: rest else q :: mcInsert p rest

/-- Counter.most_common: the entries sorted by descending count, stably. -/
def mostCommon (l : List (String × ℕ)) : List (String × ℕ) :=
  l.foldl (fun acc p => mcInsert p acc) []

/-- WeatherAnalyzer.get_weather_distribution (analyzer.py lines 113-124):
dict(Counter(descriptions).most_common()), modelled as the ordered
association list; the empty dict for empty data. -/
def get_weather_distribution (data : List WRec) : List (String × ℕ) :=
  if data.isEmpty then []
  else mostCommon (counterOf (data.map (·.description)))

/-- Index of the first occurrence of a string in a list: first-seen order. -/
def firstIdx (xs : List String) (d : String) : ℕ := xs.findIdx (· == d)

/-- The dict returned by get_comprehensive_analysis (analyzer.py 164-179). -/
structure Analysis where
  temperature_stats : Option TempStats
  humidity_stats : Option HumidityStats
  wind_stats : Option WindStats
  weather_categories : List (String × List String)
  weather_distribution : List (String × ℕ)
  temperature_ranges : List (String × List String)
  total_cities : ℕ

/-- WeatherAnalyzer.get_comprehensive_analysis, with the threshold
configuration passed through to the range bucketing. -/
def get_comprehensive_analysis (T : TempRanges) (data : List WRec) : Analysis :=
  { temperature_stats := get_temperature_stats data
    humidity_stats := get_humidity_stats data
    wind_stats := get_wind_stats data
    weather_categories := categorize_weather data
    weather_distribution := get_weather_distribution data
    temperature_ranges := get_temperature_ranges T data
    total_cities := data.length }

/-- C4: on the empty RecordSet every analyzer operation returns the empty
mapping rather than an error, and the comprehensive analysis reports a
record count of zero. -/
theorem empty_recordset_empty_results :
    get_temperature_stats [] = none ∧ get_humidity_stats [] = none ∧
    get_wind_stats [] = none ∧ categorize_weather [] = [] ∧
    get_weather_distribution [] = [] ∧
    (∀ T : TempRanges, get_temperature_ranges T [] = []) ∧
    (∀ T : TempRanges, (get_comprehensive_analysis T []).total_cities = 0) :=
  ⟨rfl, rfl, rfl, rfl, rfl, fun _ => rfl, fun _ => rfl⟩

/-- Association-list lookup, the access of a Python dict model. -/
def lookupCnt (k : String) : List (String × ℕ) → Option ℕ
  | [] => none
  | (d, n) :: rest => if k = d then some n else lookupCnt k rest

theorem lookupCnt_counterAdd (d k : String) (acc : List (String × ℕ)) :
    lookupCnt k (counterAdd d acc) =
      if k = d then some ((lookupCnt d acc).getD 0 + 1) else lookupCnt k acc := by
  induction acc with
  | nil =>
    simp only [counterAdd, lookupCnt]
    split_ifs <;> simp [lookupCnt]
  | cons q rest ih =>
    obtain ⟨a, m⟩ := q
    simp only [counterAdd]
    by_cases had : a = d
    · rw [if_pos had]
      subst had
      simp only [lookupCnt, if_pos rfl]
      split_ifs with hka
      · subst hka
        simp [lookupCnt]
      · rfl
    · rw [if_neg had]
      simp only [lookupCnt]
      by_cases hka : k = a
      · have hkd : ¬ k = d := by rw [hka]; exact had
        rw [if_pos hka, if_neg hkd, if_pos hka]
      · rw [if_neg hka, ih]
        by_cases hkd : k = d
        · have hda : ¬ d = a := fun hc => had hc.symm
          rw [if_pos hkd, if_pos hkd, if_neg hda]
        · rw [if_neg hkd, if_neg hkd, if_neg hka]

theorem lookupCnt_counterFold (xs : List String) :
    ∀ (acc : List (String × ℕ)) (k : String),
      lookupCnt k (xs.foldl (fun a d => counterAdd d a) acc) =
        if (lookupCnt k acc).isSome = true ∨ k ∈ xs then
          some ((lookupCnt k acc).getD 0 + xs.count k) else none := by
  induction xs with
  | nil =>
    intro acc k
    simp only [List.foldl_nil, List.count_nil, List.not_mem_nil, or_false]
    cases h : lookupCnt k acc with
    | none => simp
    | some n => simp
  | cons d rest ih =>
    intro acc k
    rw [List.foldl_cons, ih]
    by_cases hkd : k = d
    · subst hkd
      rw [lookupCnt_counterAdd]
      simp only [if_pos rfl, Option.isSome_some, Option.getD_some, List.count_cons,
        List.mem_cons, true_or, or_true, if_pos, beq_self_eq_true, if_true]
      congr 1
      omega
    · rw [lookupCnt_counterAdd, if_neg hkd]
      have hdk : ¬ d = k := fun hc => hkd hc.symm
      have hbeq : (d == k) = false := by
        simp [hdk]
      simp only [List.count_cons, hbeq, Bool.false_eq_true, if_false,
        List.mem_cons, Nat.add_zero]
      by_cases hs : (lookupCnt k acc).isSome = true ∨ k ∈ rest
      · rw [if_pos hs, if_pos (by tauto)]
      · rw [if_neg hs, if_neg (by
          rintro (hc | hc | hc)
          · exact hs (Or.inl hc)
          · exact hkd hc
          · exact hs (Or.inr hc))]

theorem lookupCnt_counterOf (xs : List String) (k : String) :
    lookupCnt k (counterOf xs) = if k ∈ xs then some (xs.count k) else none := by
  have h := lookupCnt_counterFold xs [] k
  simp only [lookupCnt, Option.isSome_none, Option.getD_none, Bool.false_eq_true,
    false_or, Nat.zero_add] at h
  exact h

theorem counterAdd_keys (d : String) (acc : List (String × ℕ)) :
    (counterAdd d acc).map Prod.fst =
      if d ∈ acc.map Prod.fst then acc.map Prod.fst else acc.map Prod.fst ++ [d] := by
  induction acc with
  | nil => simp [counterAdd]
  | cons q rest ih =>
    obtain ⟨a, m⟩ := q
    simp only [counterAdd, List.map_cons]
    by_cases had : a = d
    · subst had
      simp
    · rw [if_neg had]
      have hda : ¬ d = a := fun hc => had hc.symm
      simp only [List.map_cons, ih, List.mem_cons]
      by_cases hd : d ∈ rest.map Prod.fst
      · rw [if_pos hd, if_pos (Or.inr hd)]
      · rw [if_neg hd, if_neg (by rintro (hc | hc); exact hda hc; exact hd hc)]
        simp

/-- The keys a run of Counter updates appends: the distinct new strings in
first-seen order. -/
def newKeys (seen : List String) : List String → List String
  | [] => []
  | d :: rest => if d ∈ seen then newKeys seen rest else d :: newKeys (d :: seen) rest

theorem newKeys_congr : ∀ (xs seen1 seen2 : List String),
    (∀ k, k ∈ seen1 ↔ k ∈ seen2) → newKeys seen1 xs = newKeys seen2 xs := by
  intro xs
  induction xs with
  | nil => intro s1 s2 hs; rfl
  | cons d rest ih =>
    intro s1 s2 hs
    simp only [newKeys]
    by_cases hd : d ∈ s1
    · rw [if_pos hd, if_pos ((hs d).mp hd), ih s1 s2 hs]
    · rw [if_neg hd, if_neg (fun hc => hd ((hs d).mpr hc))]
      rw [ih (d :: s1) (d :: s2) (by intro k; simp [hs k])]

theorem counterFold_keys (xs : List String) :
    ∀ acc : List (String × ℕ),
      (xs.foldl (fun a d => counterAdd d a) acc).map Prod.fst =
        acc.map Prod.fst ++ newKeys (acc.map Prod.fst) xs := by
  induction xs with
  | nil => intro acc; simp [newKeys]
  | cons d rest ih =>
    intro acc
    rw [List.foldl_cons, ih, counterAdd_keys]
    by_cases hd : d ∈ acc.map Prod.fst
    · rw [if_pos hd]
      simp only [newKeys, if_pos hd]
    · rw [if_neg hd]
      simp only [newKeys, if_neg hd]
      rw [newKeys_congr rest (acc.map Prod.fst ++ [d]) (d :: acc.map Prod.fst)
        (by intro k; simp [or_comm])]
      simp

theorem newKeys_mem : ∀ (xs seen : List String) (k : String),
    k ∈ newKeys seen xs → k ∉ seen ∧ k ∈ xs := by
  intro xs
  induction xs with
  | nil => intro seen k hk; simp [newKeys] at hk
  | cons d rest ih =>
    intro seen k hk
    simp only [newKeys] at hk
    by_cases hd : d ∈ seen
    · rw [if_pos hd] at hk
      obtain ⟨h1, h2⟩ := ih seen k hk
      exact ⟨h1, List.mem_cons_of_mem _ h2⟩
    · rw [if_neg hd] at hk
      rcases List.mem_cons.mp hk with rfl | h2
      · exact ⟨hd, List.mem_cons_self _ _⟩
      · obtain ⟨h1, h3⟩ := ih (d :: seen) k h2
        exact ⟨fun hc => h1 (List.mem_cons_of_mem _ hc), List.mem_cons_of_mem _ h3⟩

theorem firstIdx_cons_self (d : String) (rest : List String) :
    firstIdx (d :: rest) d = 0 := by
  simp [firstIdx, List.findIdx_cons]

theorem firstIdx_cons_ne (d k : String) (rest : List String) (h : k ≠ d) :
    firstIdx (d :: rest) k = firstIdx rest k + 1 := by
  have hdk : ¬ d = k := fun hc => h hc.symm
  have hbeq : (d == k) = false := by
    simp [hdk]
  simp [firstIdx, List.findIdx_cons, hbeq]

theorem newKeys_pairwise_firstIdx : ∀ (xs seen : List String),
    (newKeys seen xs).Pairwise (fun a b => firstIdx xs a < firstIdx xs b) := by
  intro xs
  induction xs with
  | nil => intro seen; simp [newKeys]
  | cons d rest ih =>
    intro seen
    simp only [newKeys]
    by_cases hd : d ∈ seen
    · rw [if_pos hd]
      refine List.Pairwise.imp_of_mem ?_ (ih seen)
      intro a b ha hb hab
      have hna : a ≠ d := fun hc => (newKeys_mem rest seen a ha).1 (hc ▸ hd)
      have hnb : b ≠ d := fun hc => (newKeys_mem rest seen b hb).1 (hc ▸ hd)
      rw [firstIdx_cons_ne d a rest hna, firstIdx_cons_ne d b rest hnb]
      omega
    · rw [if_neg hd]
      refine List.Pairwise.cons ?_ ?_
      · intro b hb
        have hnb : b ≠ d := fun hc =>
          (newKeys_mem rest (d :: seen) b hb).1 (hc ▸ List.mem_cons_self d seen)
        rw [firstIdx_cons_self, firstIdx_cons_ne d b rest hnb]
        omega
      · refine List.Pairwise.imp_of_mem ?_ (ih (d :: seen))
        intro a b ha hb hab
        have hna : a ≠ d := fun hc =>
          (newKeys_mem rest (d :: seen) a ha).1 (hc ▸ List.mem_cons_self d seen)
        have hnb : b ≠ d := fun hc =>
          (newKeys_mem rest (d :: seen) b hb).1 (hc ▸ List.mem_cons_self d seen)
        rw [firstIdx_cons_ne d a rest hna, firstIdx_cons_ne d b rest hnb]
        omega

theorem lookupCnt_eq_some_iff (d : String) (k : ℕ) :
    ∀ (l : List (String × ℕ)), (l.map Prod.fst).Nodup →
      (lookupCnt d l = some k ↔ (d, k) ∈ l) := by
  intro l
  induction l with
  | nil => intro hnd; simp [lookupCnt]
  | cons q rest ih =>
    intro hnd
    obtain ⟨a, m⟩ := q
    simp only [List.map_cons, List.nodup_cons] at hnd
    simp only [lookupCnt]
    by_cases hda : d = a
    · subst hda
      rw [if_pos rfl]
      constructor
      · intro hs
        have hkm : m = k := by injection hs
        rw [← hkm]
        exact List.mem_cons_self _ _
      · intro hmem
        rcases List.mem_cons.mp hmem with h1 | h2
        · have : k = m := by
            have := congrArg Prod.snd h1
            simpa using this
          rw [this]
        · exact absurd (List.mem_map.mpr ⟨(d, k), h2, rfl⟩) hnd.1
    · rw [if_neg hda]
      rw [ih hnd.2]
      constructor
      · exact fun h2 => List.mem_cons_of_mem _ h2
      · intro hmem
        rcases List.mem_cons.mp hmem with h1 | h2
        · exact absurd (congrArg Prod.fst h1) (by simpa using hda)
        · exact h2

theorem mcInsert_mem (p : String × ℕ) :
    ∀ (l : List (String × ℕ)) (z : String × ℕ), z ∈ mcInsert p l ↔ z = p ∨ z ∈ l := by
  intro l
  induction l with
  | nil => intro z; simp [mcInsert]
  | cons q rest ih =>
    intro z
    simp only [mcInsert]
    by_cases h : p.2 > q.2
    · rw [if_pos h]
      simp [List.mem_cons]
    · rw [if_neg h]
      simp only [List.mem_cons, ih]
      tauto

theorem mcInsert_perm (p : String × ℕ) :
    ∀ l : List (String × ℕ), List.Perm (mcInsert p l) (p :: l) := by
  intro l
  induction l with
  | nil => exact List.Perm.refl _
  | cons q rest ih =>
    simp only [mcInsert]
    by_cases h : p.2 > q.2
    · rw [if_pos h]
    · rw [if_neg h]
      exact (ih.cons q).trans (List.Perm.swap p q rest)

theorem sortFold_perm : ∀ (l acc : List (String × ℕ)),
    List.Perm (l.foldl (fun a p => mcInsert p a) acc) (acc ++ l) := by
  intro l
  induction l with
  | nil => intro acc; simp
  | cons p rest ih =>
    intro acc
    rw [List.foldl_cons]
    refine (ih (mcInsert p acc)).trans ?_
    refine ((mcInsert_perm p acc).append_right rest).trans ?_
    exact List.perm_middle.symm

theorem mcInsert_sorted (p : String × ℕ) :
    ∀ l : List (String × ℕ), l.Pairwise (fun a b => b.2 ≤ a.2) →
      (mcInsert p l).Pairwise (fun a b => b.2 ≤ a.2) := by
  intro l
  induction l with
  | nil => intro _; simp [mcInsert]
  | cons q rest ih =>
    intro hl
    rcases List.pairwise_cons.mp hl with ⟨hq, hrest⟩
    simp only [mcInsert]
    by_cases h : p.2 > q.2
    · rw [if_pos h]
      refine List.Pairwise.cons ?_ hl
      intro z hz
      rcases List.mem_cons.mp hz with rfl | hz2
      · exact le_of_lt h
      · exact le_trans (hq z hz2) (le_of_lt h)
    · rw [if_neg h]
      refine List.Pairwise.cons ?_ (ih hrest)
      intro z hz
      rcases (mcInsert_mem p rest z).mp hz with rfl | hz2
      · exact le_of_not_lt h
      · exact hq z hz2

theorem mcInsert_stable (g : String × ℕ → ℕ) (p : String × ℕ) :
    ∀ l : List (String × ℕ),
      l.Pairwise (fun a b => b.2 ≤ a.2) →
      l.Pairwise (fun a b => a.2 = b.2 → g a ≤ g b) →
      (∀ a ∈ l, a.2 = p.2 → g a ≤ g p) →
      (mcInsert p l).Pairwise (fun a b => a.2 = b.2 → g a ≤ g b) := by
  intro l
  induction l with
  | nil => intro _ _ _; simp [mcInsert]
  | cons q rest ih =>
    intro hsort hT hp
    rcases List.pairwise_cons.mp hsort with ⟨hqle, hrests⟩
    rcases List.pairwise_cons.mp hT with ⟨hqT, hrestT⟩
    simp only [mcInsert]
    by_cases h : p.2 > q.2
    · rw [if_pos h]
      refine List.Pairwise.cons ?_ hT
      intro z hz heq
      exfalso
      rcases List.mem_cons.mp hz with rfl | hz2
      · exact absurd heq (ne_of_gt h)
      · have := hqle z hz2
        omega
    · rw [if_neg h]
      refine List.Pairwise.cons ?_
        (ih hrests hrestT (fun a ha => hp a (List.mem_cons_of_mem _ ha)))
      intro z hz
      rcases (mcInsert_mem p rest z).mp hz with rfl | hz2
      · exact fun heq => hp q (List.mem_cons_self _ _) heq
      · exact hqT z hz2

theorem sortFold_pairwise (g : String × ℕ → ℕ) :
    ∀ (l acc : List (String × ℕ)),
      acc.Pairwise (fun a b => b.2 ≤ a.2) →
      acc.Pairwise (fun a b => a.2 = b.2 → g a ≤ g b) →
      (∀ a ∈ acc, ∀ b ∈ l, g a < g b) →
      l.Pairwise (fun a b => g a < g b) →
      (l.foldl (fun a p => mcInsert p a) acc).Pairwise (fun a b => b.2 ≤ a.2) ∧
      (l.foldl (fun a p => mcInsert p a) acc).Pairwise
        (fun a b => a.2 = b.2 → g a ≤ g b) := by
  intro l
  induction l with
  | nil =>
    intro acc h1 h2 _ _
    exact ⟨h1, h2⟩
  | cons p rest ih =>
    intro acc h1 h2 hcross hl
    rcases List.pairwise_cons.mp hl with ⟨hpr, hrest⟩
    rw [List.foldl_cons]
    refine ih (mcInsert p acc) (mcInsert_sorted p acc h1) ?_ ?_ hrest
    · exact mcInsert_stable g p acc h1 h2
        (fun a ha _ => le_of_lt (hcross a ha p (List.mem_cons_self _ _)))
    · intro a ha b hb
      rcases (mcInsert_mem p acc a).mp ha with rfl | ha2
      · exact hpr b hb
      · exact hcross a ha2 b (List.mem_cons_of_mem _ hb)

/-- C5: for non-empty data the weather distribution maps each distinct
description, compared exactly with no normalization, to its number of
records; its keys are distinct; entries are in descending count order with
ties broken by first-seen order of the description in the input; and on the
example with counts Clear Sky 3, Rain 3, Cloudy 1 in that first-seen order,
Clear Sky precedes Rain. -/
theorem weather_distribution_counts_and_order (data : List WRec) (h : data ≠ []) :
    ((get_weather_distribution data).map Prod.fst).Nodup
    ∧ (∀ d k, (d, k) ∈ get_weather_distribution data ↔
        (d ∈ data.map (·.description) ∧ k = (data.map (·.description)).count d))
    ∧ (get_weather_distribution data).Pairwise (fun a b => b.2 ≤ a.2)
    ∧ (get_weather_distribution data).Pairwise
        (fun a b => a.2 = b.2 →
          firstIdx (data.map (·.description)) a.1 ≤
            firstIdx (data.map (·.description)) b.1)
    ∧ get_weather_distribution
        [⟨"P1", 20, 50, "Clear Sky", 3, "GB", "t"⟩, ⟨"P2", 20, 50, "Rain", 3, "GB", "t"⟩,
         ⟨"P3", 20, 50, "Cloudy", 3, "GB", "t"⟩, ⟨"P4", 20, 50, "Clear Sky", 3, "GB", "t"⟩,
         ⟨"P5", 20, 50, "Rain", 3, "GB", "t"⟩, ⟨"P6", 20, 50, "Clear Sky", 3, "GB", "t"⟩,
         ⟨"P7", 20, 50, "Rain", 3, "GB", "t"⟩] =
        [("Clear Sky", 3), ("Rain", 3), ("Cloudy", 1)] := by
  have hD : get_weather_distribution data =
      mostCommon (counterOf (data.map (·.description))) := by
    unfold get_weather_distribution
    rw [if_neg (by simpa using h)]
  have hkeys : (counterOf (data.map (·.description))).map Prod.fst =
      newKeys [] (data.map (·.description)) := by
    have hk := counterFold_keys (data.map (·.description)) []
    simpa [counterOf] using hk
  have hkeysPW : ((counterOf (data.map (·.description))).map Prod.fst).Pairwise
      (fun a b => firstIdx (data.map (·.description)) a <
        firstIdx (data.map (·.description)) b) := by
    rw [hkeys]
    exact newKeys_pairwise_firstIdx (data.map (·.description)) []
  have hkeysND : ((counterOf (data.map (·.description))).map Prod.fst).Nodup :=
    hkeysPW.imp (fun hab heq => absurd (heq ▸ hab) (lt_irrefl _))
  have hperm : List.Perm (mostCommon (counterOf (data.map (·.description))))
      (counterOf (data.map (·.description))) := by
    have hp := sortFold_perm (counterOf (data.map (·.description))) []
    simpa [mostCommon] using hp
  have hCpw : (counterOf (data.map (·.description))).Pairwise
      (fun a b => firstIdx (data.map (·.description)) a.1 <
        firstIdx (data.map (·.description)) b.1) := by
    exact List.Pairwise.of_map Prod.fst (fun a b hab => hab) hkeysPW
  obtain ⟨hsorted, hstable⟩ := sortFold_pairwise
    (fun p => firstIdx (data.map (·.description)) p.1)
    (counterOf (data.map (·.description))) []
    List.Pairwise.nil List.Pairwise.nil (by intro a ha; simp at ha) hCpw
  refine ⟨?_, ?_, ?_, ?_, ?_⟩
  · rw [hD]
    exact ((hperm.map Prod.fst).nodup_iff).mpr hkeysND
  · intro d k
    rw [hD, hperm.mem_iff, ← lookupCnt_eq_some_iff d k _ hkeysND,
      lookupCnt_counterOf]
    constructor
    · intro hin
      by_cases hd : d ∈ data.map (·.description)
      · rw [if_pos hd] at hin
        exact ⟨hd, (Option.some_inj.mp hin).symm⟩
      · rw [if_neg hd] at hin
        cases hin
    · rintro ⟨hd, rfl⟩
      rw [if_pos hd]
  · rw [hD]
    exact hsorted
  · rw [hD]
    exact hstable
  · decide

/-- Witness for weather_distribution_counts_and_order at a two-record
input with different descriptions. -/
theorem weather_distribution_counts_and_order_witness :
    ("Mist", 1) ∈ get_weather_distribution
      [⟨"A", 20, 50, "Mist", 3, "GB", "t"⟩, ⟨"B", 21, 60, "Haze", 4, "FR", "t"⟩] :=
  ((weather_distribution_counts_and_order
    [⟨"A", 20, 50, "Mist", 3, "GB", "t"⟩, ⟨"B", 21, 60, "Haze", 4, "FR", "t"⟩]
    (List.cons_ne_nil _ _)).2.1 "Mist" 1).mpr (by constructor <;> decide)

theorem categoryOf_mem_names (r : WRec) :
    categoryOf r ∈ (["clear", "rain", "clouds", "snow", "other"] : List String) := by
  unfold categoryOf
  split_ifs <;> simp

theorem categorize_weather_filters (data : List WRec) (h : data ≠ []) :
    categorize_weather data =
      [("clear", (data.filter (fun r => categoryOf r = "clear")).map (·.city)),
       ("rain", (data.filter (fun r => categoryOf r = "rain")).map (·.city)),
       ("clouds", (data.filter (fun r => categoryOf r = "clouds")).map (·.city)),
       ("snow", (data.filter (fun r => categoryOf r = "snow")).map (·.city)),
       ("other", (data.filter (fun r => categoryOf r = "other")).map (·.city))] := by
  unfold categorize_weather
  rw [if_neg (by simpa using h), catFold]
  simp only [List.nil_append]

theorem perm_pull (c : String) (A : List String) {X Y : List String}
    (h : List.Perm X (c :: Y)) : List.Perm (A ++ X) (c :: (A ++ Y)) :=
  (List.Perm.append_left A h).trans List.perm_middle

theorem five_filters_perm (data : List WRec) :
    List.Perm
      ((data.filter (fun r => categoryOf r = "clear")).map (·.city) ++
       ((data.filter (fun r => categoryOf r = "rain")).map (·.city) ++
        ((data.filter (fun r => categoryOf r = "clouds")).map (·.city) ++
         ((data.filter (fun r => categoryOf r = "snow")).map (·.city) ++
          (data.filter (fun r => categoryOf r = "other")).map (·.city)))))
      (data.map (·.city)) := by
  induction data with
  | nil => simp
  | cons r rest ih =>
    have hmem := categoryOf_mem_names r
    simp only [List.mem_cons, List.not_mem_nil, or_false] at hmem
    rcases hmem with hc | hc | hc | hc | hc
    · simp only [List.filter_cons, List.map_cons, hc, decide_True, if_true,
        decide_False, if_false, List.cons_append]
      simp only [show decide (("clear" : String) = "clear") = true by decide,
        show decide (("clear" : String) = "rain") = false by decide,
        show decide (("clear" : String) = "clouds") = false by decide,
        show decide (("clear" : String) = "snow") = false by decide,
        show decide (("clear" : String) = "other") = false by decide,
        if_true, if_false, List.map_cons, List.cons_append]
      exact ih.cons _
    · simp only [List.filter_cons, hc,
        show decide (("rain" : String) = "clear") = false by decide,
        show decide (("rain" : String) = "rain") = true by decide,
        show decide (("rain" : String) = "clouds") = false by decide,
        show decide (("rain" : String) = "snow") = false by decide,
        show decide (("rain" : String) = "other") = false by decide,
        if_true, if_false, List.map_cons, List.cons_append]
      exact (perm_pull r.city _ (List.Perm.refl _)).trans (ih.cons _)
    · simp only [List.filter_cons, hc,
        show decide (("clouds" : String) = "clear") = false by decide,
        show decide (("clouds" : String) = "rain") = false by decide,
        show decide (("clouds" : String) = "clouds") = true by decide,
        show decide (("clouds" : String) = "snow") = false by decide,
        show decide (("clouds" : String) = "other") = false by decide,
        if_true, if_false, List.map_cons, List.cons_append]
      exact (perm_pull r.city _ (perm_pull r.city _ (List.Perm.refl _))).trans (ih.cons _)
    · simp only [List.filter_cons, hc,
        show decide (("snow" : String) = "clear") = false by decide,
        show decide (("snow" : String) = "rain") = false by decide,
        show decide (("snow" : String) = "clouds") = false by decide,
        show decide (("snow" : String) = "snow") = true by decide,
        show decide (("snow" : String) = "other") = false by decide,
        if_true, if_false, List.map_cons, List.cons_append]
      exact (perm_pull r.city _ (perm_pull r.city _ (perm_pull r.city _
        (List.Perm.refl _)))).trans (ih.cons _)
    · simp only [List.filter_cons, hc,
        show decide (("other" : String) = "clear") = false by decide,
        show decide (("other" : String) = "rain") = false by decide,
        show decide (("other" : String) = "clouds") = false by decide,
        show decide (("other" : String) = "snow") = false by decide,
        show decide (("other" : String) = "other") = true by decide,
        if_true, if_false, List.map_cons, List.cons_append]
      exact (perm_pull r.city _ (perm_pull r.city _ (perm_pull r.city _
        (perm_pull r.city _ (List.Perm.refl _))))).trans (ih.cons _)

/-- C7 amended: for every RecordSet whose city names are pairwise distinct,
every input city appears in exactly one category list of categorize_weather,
each list preserves original record order (it is a sublist of the input city
sequence), and the concatenation of all category lists is a permutation of
the input cities with no duplicates.  Without the distinctness hypothesis a
city carried by two records can land in two category lists, see the
counterexample. -/
theorem categorize_partition (data : List WRec)
    (h : (data.map (·.city)).Nodup) :
    List.Perm (((categorize_weather data).map Prod.snd).flatten) (data.map (·.city))
    ∧ (((categorize_weather data).map Prod.snd).flatten).Nodup
    ∧ (∀ c ∈ data.map (·.city),
        ((categorize_weather data).map Prod.snd).countP (fun L => decide (c ∈ L)) = 1)
    ∧ (∀ p ∈ categorize_weather data, List.Sublist p.2 (data.map (·.city))) := by
  by_cases hdata : data = []
  · subst hdata
    refine ⟨List.Perm.refl _, by simp [categorize_weather], ?_, ?_⟩
    · intro c hc
      simp at hc
    · intro p hp
      simp [categorize_weather] at hp
  · have hfil := categorize_weather_filters data hdata
    have hjoin : ((categorize_weather data).map Prod.snd).flatten =
        (data.filter (fun r => categoryOf r = "clear")).map (·.city) ++
        ((data.filter (fun r => categoryOf r = "rain")).map (·.city) ++
         ((data.filter (fun r => categoryOf r = "clouds")).map (·.city) ++
          ((data.filter (fun r => categoryOf r = "snow")).map (·.city) ++
           (data.filter (fun r => categoryOf r = "other")).map (·.city)))) := by
      rw [hfil]
      simp
    have hperm := five_filters_perm data
    have hinj : ∀ x ∈ data, ∀ y ∈ data, x.city = y.city → x = y := by
      intro x hx y hy hxy
      exact List.inj_on_of_nodup_map h hx hy hxy
    refine ⟨?_, ?_, ?_, ?_⟩
    · rw [hjoin]
      exact hperm
    · rw [hjoin]
      exact (hperm.nodup_iff).mpr h
    · intro c hc
      obtain ⟨r0, hr0, hr0c⟩ := List.mem_map.mp hc
      have hmemL : ∀ name : String,
          (c ∈ (data.filter (fun r => categoryOf r = name)).map (·.city)) ↔
            categoryOf r0 = name := by
        intro name
        constructor
        · intro hcL
          obtain ⟨r', hr', hr'c⟩ := List.mem_map.mp hcL
          obtain ⟨hr'mem, hr'cat⟩ := List.mem_filter.mp hr'
          have : r' = r0 := hinj r' hr'mem r0 hr0 (by rw [hr'c, hr0c])
          rw [← this]
          exact of_decide_eq_true hr'cat
        · intro hcat
          exact List.mem_map.mpr ⟨r0,
            List.mem_filter.mpr ⟨hr0, by simp [hcat]⟩, hr0c⟩
      rw [hfil]
      simp only [List.map_cons, List.map_nil, List.countP_cons, List.countP_nil]
      simp only [decide_eq_true_eq, hmemL]
      have hmem5 := categoryOf_mem_names r0
      simp only [List.mem_cons, List.not_mem_nil, or_false] at hmem5
      rcases hmem5 with hc5 | hc5 | hc5 | hc5 | hc5 <;> simp [hc5]
    · intro p hp
      rw [hfil] at hp
      simp only [List.mem_cons, List.not_mem_nil, or_false] at hp
      have hsub : ∀ q : WRec → Bool,
          List.Sublist ((data.filter q).map (·.city)) (data.map (·.city)) :=
        fun q => List.Sublist.map _ (List.filter_sublist data)
      rcases hp with rfl | rfl | rfl | rfl | rfl <;> exact hsub _

/-- Witness for categorize_partition at a two-record input with distinct
cities. -/
theorem categorize_partition_witness :
    ((categorize_weather [⟨"A", 20, 50, "Clear", 3, "GB", "t"⟩,
      ⟨"B", 25, 60, "Rain", 4, "GB", "t"⟩]).map Prod.snd).countP
        (fun L => decide ("A" ∈ L)) = 1 :=
  (categorize_partition [⟨"A", 20, 50, "Clear", 3, "GB", "t"⟩,
    ⟨"B", 25, 60, "Rain", 4, "GB", "t"⟩] (by decide)).2.2.1 "A" (by decide)

/-- C7 counterexample: two records sharing the city name A, one Clear and
one Rain, put A into two different category lists, so an input city can
appear in more than one category and the concatenation has a duplicate. -/
theorem categorize_partition_counterexample :
    "A" ∈ ([⟨"A", 20, 50, "Clear", 3, "GB", "t"⟩,
        ⟨"A", 25, 60, "Rain", 4, "GB", "t"⟩] : List WRec).map (·.city)
    ∧ ((categorize_weather [⟨"A", 20, 50, "Clear", 3, "GB", "t"⟩,
        ⟨"A", 25, 60, "Rain", 4, "GB", "t"⟩]).map Prod.snd).countP
          (fun L => decide ("A" ∈ L)) = 2 := by
  constructor
  · decide
  · decide


/-- A cell of a numeric column as the DataFrame holds it: a coercible
numeric value, NaN for a missing field, or a present but non-coercible
value (the column then takes object dtype and keeps the raw text). -/
inductive RCell where
  | num : ℚ → RCell
  | nan : RCell
  | str : String → RCell
  deriving DecidableEq, Repr

/-- Whether the cell holds a non-coercible (malformed) value. -/
def RCell.isStr : RCell → Bool
  | .num _ => false
  | .nan => false
  | .str _ => true

/-- Whether the cell holds a coercible numeric value. -/
def RCell.isNum : RCell → Bool
  | .num _ => true
  | .nan => false
  | .str _ => false

/-- The numeric value of the cell, when it has one. -/
def RCell.toNum : RCell → Option ℚ
  | .num v => some v
  | .nan => none
  | .str _ => none

/-- A record as it sits in the DataFrame when numeric fields may be missing
or malformed. -/
structure RawRec where
  city : String
  temperature : RCell
  humidity : RCell
  description : String
  wind_speed : RCell
  deriving DecidableEq, Repr

/-- The cells of a column carrying a coercible numeric value. -/
def presentVals (col : List RCell) : List ℚ := col.filterMap RCell.toNum

/-- pandas Series.max on a numeric column with its default skipna: NaN
cells are ignored. -/
def skMax (col : List RCell) : Option ℚ := seriesMax (presentVals col)

/-- pandas Series.min on a numeric column with its default skipna. -/
def skMin (col : List RCell) : Option ℚ := seriesMin (presentVals col)

/-- pandas Series.mean on a numeric column with its default skipna: the
mean of the non-NaN cells, NaN when none are present. -/
def skMean (col : List RCell) : Option ℚ :=
  if (presentVals col).isEmpty then none
  else some (seriesMean (presentVals col))

/-- pandas Series.idxmax on a numeric column with its default skipna: the
first row whose cell is present and attains the maximum of the present
cells. -/
def rawFirstMax (f : RawRec → RCell) (data : List RawRec) : Option RawRec :=
  (firstMaxBy (fun p : RawRec × ℚ => p.2)
    (data.filterMap (fun r => ((f r).toNum).map (fun v => (r, v))))).map (·.1)

/-- pandas Series.idxmin on a numeric column with its default skipna. -/
def rawFirstMin (f : RawRec → RCell) (data : List RawRec) : Option RawRec :=
  (firstMinBy (fun p : RawRec × ℚ => p.2)
    (data.filterMap (fun r => ((f r).toNum).map (fun v => (r, v))))).map (·.1)

/-- The stats dict a column-wise aggregation produces; none in a field
models a NaN entry, none overall models the empty dict. -/
structure RawStats where
  highest : Option ℚ
  lowest : Option ℚ
  average : Option ℚ
  highest_city : Option String
  lowest_city : Option String
  deriving DecidableEq, Repr

/-- The shared shape of get_temperature_stats, get_humidity_stats and
get_wind_stats of analyzer.py over a possibly incomplete or malformed
numeric column.  A non-coercible value gives the column object dtype, and
the pandas reductions used to build the dict then raise TypeError (mean can
neither add a string to a number nor divide a string concatenation by a
count), modelled as an error result; over a numeric column the reductions
skip NaN cells. -/
def rawStatsBy (f : RawRec → RCell) (data : List RawRec) :
    Except String (Option RawStats) :=
  if data.isEmpty then .ok none
  else if (data.map f).any (fun c => c.isStr) then .error "TypeError"
  else
    .ok (some {
      highest := skMax (data.map f)
      lowest := skMin (data.map f)
      average := (skMean (data.map f)).map round1
      highest_city := (rawFirstMax f data).map (·.city)
      lowest_city := (rawFirstMin f data).map (·.city) })

theorem filterMap_filter_eq {α β : Type} (g : α → Option β) (p : α → Bool)
    (h : ∀ a, p a = false → g a = none) :
    ∀ l : List α, (l.filter p).filterMap g = l.filterMap g := by
  intro l
  induction l with
  | nil => rfl
  | cons a t ih =>
    simp only [List.filter_cons]
    cases hp : p a with
    | true =>
      simp only [if_true, List.filterMap_cons, ih]
    | false =>
      simp only [Bool.false_eq_true, if_false, List.filterMap_cons, h a hp, ih]

theorem presentVals_filter (f : RawRec → RCell) (data : List RawRec) :
    presentVals ((data.filter (fun r => (f r).isNum)).map f) =
      presentVals (data.map f) := by
  unfold presentVals
  rw [List.filterMap_map, List.filterMap_map]
  refine filterMap_filter_eq _ _ ?_ data
  intro a ha
  cases hfa : f a with
  | num v => rw [hfa] at ha; simp [RCell.isNum] at ha
  | nan => simp [Function.comp, hfa, RCell.toNum]
  | str s => simp [Function.comp, hfa, RCell.toNum]

theorem pairs_filter (f : RawRec → RCell) (data : List RawRec) :
    ((data.filter (fun r => (f r).isNum)).filterMap
      (fun r => ((f r).toNum).map (fun v => (r, v)))) =
    (data.filterMap (fun r => ((f r).toNum).map (fun v => (r, v)))) := by
  refine filterMap_filter_eq _ _ ?_ data
  intro a ha
  cases hfa : f a with
  | num v => rw [hfa] at ha; simp [RCell.isNum] at ha
  | nan => rfl
  | str s => rfl

/-- C8 amended: an aggregate over a column holding a present but
non-coercible value fails with a typed error (TypeError), as the claim
demands for malformed values; but a record whose numeric field is merely
missing is not an error: when no value is malformed and at least one record
carries the field, the pandas reductions silently skip the NaN cells and
return the fully populated dict computed over the records that carry the
field. -/
theorem raw_stats_malformed_error_skip_missing (data : List RawRec)
    (f : RawRec → RCell) :
    ((∃ r ∈ data, (f r).isStr = true) → rawStatsBy f data = .error "TypeError")
    ∧ ((∀ r ∈ data, (f r).isStr = false) → (∃ r ∈ data, (f r).isNum = true) →
        rawStatsBy f data = rawStatsBy f (data.filter (fun r => (f r).isNum))
        ∧ ∃ s, rawStatsBy f data = .ok (some s) ∧ s.highest.isSome ∧
            s.lowest.isSome ∧ s.average.isSome ∧ s.highest_city.isSome ∧
            s.lowest_city.isSome) := by
  constructor
  · rintro ⟨r, hr, hstr⟩
    have hne : data ≠ [] := by
      intro hc
      rw [hc] at hr
      simp at hr
    unfold rawStatsBy
    rw [if_neg (by simpa using hne),
      if_pos (List.any_eq_true.mpr ⟨f r, List.mem_map.mpr ⟨r, hr, rfl⟩, hstr⟩)]
  · intro hno hnum
    obtain ⟨r0, hr0, hr0n⟩ := hnum
    obtain ⟨v0, hv0⟩ : ∃ v, f r0 = .num v := by
      cases hfr : f r0 with
      | num v => exact ⟨v, rfl⟩
      | nan => rw [hfr] at hr0n; simp [RCell.isNum] at hr0n
      | str s => rw [hfr] at hr0n; simp [RCell.isNum] at hr0n
    have hne : data ≠ [] := by
      intro hc
      rw [hc] at hr0
      simp at hr0
    have hfne : data.filter (fun r => (f r).isNum) ≠ [] := by
      intro hc
      have hm : r0 ∈ data.filter (fun r => (f r).isNum) :=
        List.mem_filter.mpr ⟨hr0, hr0n⟩
      rw [hc] at hm
      simp at hm
    have hany : ¬ ((data.map f).any (fun c => c.isStr) = true) := by
      intro hc
      obtain ⟨c, hcmem, hcstr⟩ := List.any_eq_true.mp hc
      obtain ⟨r, hrmem, rfl⟩ := List.mem_map.mp hcmem
      rw [hno r hrmem] at hcstr
      exact Bool.noConfusion hcstr
    have hanyf : ¬ (((data.filter (fun r => (f r).isNum)).map f).any
        (fun c => c.isStr) = true) := by
      intro hc
      obtain ⟨c, hcmem, hcstr⟩ := List.any_eq_true.mp hc
      obtain ⟨r, hrmem, rfl⟩ := List.mem_map.mp hcmem
      rw [hno r (List.mem_filter.mp hrmem).1] at hcstr
      exact Bool.noConfusion hcstr
    have hpne : presentVals (data.map f) ≠ [] := by
      intro hc
      have hm : v0 ∈ presentVals (data.map f) := by
        simp only [presentVals, List.mem_filterMap]
        exact ⟨f r0, List.mem_map.mpr ⟨r0, hr0, rfl⟩, by rw [hv0]; rfl⟩
      rw [hc] at hm
      simp at hm
    have hppne : data.filterMap (fun r => ((f r).toNum).map (fun v => (r, v))) ≠ [] := by
      intro hc
      have hm : (r0, v0) ∈
          data.filterMap (fun r => ((f r).toNum).map (fun v => (r, v))) := by
        simp only [List.mem_filterMap]
        exact ⟨r0, hr0, by rw [hv0]; rfl⟩
      rw [hc] at hm
      simp at hm
    constructor
    · unfold rawStatsBy
      simp only [List.isEmpty_eq_true]
      rw [if_neg hne, if_neg hfne, if_neg hany, if_neg hanyf]
      unfold skMax skMin skMean rawFirstMax rawFirstMin
      rw [presentVals_filter f data, pairs_filter f data]
    · refine ⟨_, by
        rw [rawStatsBy]
        simp only [List.isEmpty_eq_true]
        rw [if_neg hne, if_neg hany], ?_, ?_, ?_, ?_, ?_⟩
      · obtain ⟨x, rest, hx⟩ := List.exists_cons_of_ne_nil hpne
        simp only [skMax, hx]
        cases hs : seriesMax rest with
        | none => simp [seriesMax, hs]
        | some m => simp [seriesMax, hs]
      · obtain ⟨x, rest, hx⟩ := List.exists_cons_of_ne_nil hpne
        simp only [skMin, hx]
        cases hs : seriesMin rest with
        | none => simp [seriesMin, hs]
        | some m => simp [seriesMin, hs]
      · simp only [skMean, List.isEmpty_eq_true]
        rw [if_neg hpne]
        simp
      · obtain ⟨x, rest, hx⟩ := List.exists_cons_of_ne_nil hppne
        simp [rawFirstMax, hx, firstMaxBy]
      · obtain ⟨x, rest, hx⟩ := List.exists_cons_of_ne_nil hppne
        simp [rawFirstMin, hx, firstMinBy]

/-- Witness for raw_stats_malformed_error_skip_missing: a malformed value
raises, a merely missing one is skipped. -/
theorem raw_stats_malformed_error_skip_missing_witness :
    rawStatsBy (fun r => r.temperature)
      [⟨"C", .str "abc", .num 50, "x", .num 5⟩] = .error "TypeError"
    ∧ rawStatsBy (fun r => r.temperature)
        [⟨"A", .num 30, .num 50, "x", .num 5⟩,
         ⟨"B", .nan, .num 60, "y", .num 4⟩] =
      rawStatsBy (fun r => r.temperature)
        ([⟨"A", .num 30, .num 50, "x", .num 5⟩,
          ⟨"B", .nan, .num 60, "y", .num 4⟩].filter
          (fun r => (r.temperature).isNum)) :=
  ⟨(raw_stats_malformed_error_skip_missing
      [⟨"C", .str "abc", .num 50, "x", .num 5⟩] (fun r => r.temperature)).1
      ⟨⟨"C", .str "abc", .num 50, "x", .num 5⟩, List.mem_cons_self _ _, rfl⟩,
   ((raw_stats_malformed_error_skip_missing
      [⟨"A", .num 30, .num 50, "x", .num 5⟩, ⟨"B", .nan, .num 60, "y", .num 4⟩]
      (fun r => r.temperature)).2
      (by
        intro r hr
        rcases List.mem_cons.mp hr with rfl | hr2
        · rfl
        · rcases List.mem_cons.mp hr2 with rfl | hr3
          · rfl
          · simp at hr3)
      ⟨⟨"A", .num 30, .num 50, "x", .num 5⟩, List.mem_cons_self _ _, rfl⟩).1⟩

/-- C8 counterexample: on records A with temperature 30 and B with its
temperature missing, the temperature aggregation returns a fully populated
dict computed from A alone, skipping B silently instead of failing with a
typed error as the claim demands for a missing field. -/
theorem raw_stats_skip_missing_counterexample :
    rawStatsBy (fun r => r.temperature)
      [⟨"A", .num 30, .num 50, "x", .num 5⟩, ⟨"B", .nan, .num 60, "y", .num 4⟩] =
      .ok (some ⟨some 30, some 30, some 30, some "A", some "A"⟩)
    ∧ (⟨"B", .nan, .num 60, "y", .num 4⟩ : RawRec).temperature = .nan := by
  refine ⟨?_, rfl⟩
  unfold rawStatsBy
  rw [if_neg (by decide), if_neg (by decide)]
  have havg : (skMean ([(⟨"A", .num 30, .num 50, "x", .num 5⟩ : RawRec),
      ⟨"B", .nan, .num 60, "y", .num 4⟩].map (fun r => r.temperature))).map round1 =
      some 30 := by
    have hsk : skMean ([(⟨"A", .num 30, .num 50, "x", .num 5⟩ : RawRec),
        ⟨"B", .nan, .num 60, "y", .num 4⟩].map (fun r => r.temperature)) =
        some (seriesMean [(30 : ℚ)]) := rfl
    rw [hsk]
    have hmean : seriesMean [(30 : ℚ)] = 30 := by
      unfold seriesMean
      norm_num
    have hr30 : round1 (30 : ℚ) = 30 := by
      have h1 : (30 : ℚ) = ((300 : ℤ) : ℚ) / 10 := by norm_num
      rw [h1, round1_tenth]
    show some (round1 (seriesMean [(30 : ℚ)])) = some 30
    rw [hmean, hr30]
  rw [havg]
  rfl

/-- One CSV cell, identified with the typed value its text denotes.  The
textual form of a number written by to_csv re-parses to the same number
(shortest-repr round-trip of floats), so the save-then-load composition is
modelled on typed cells; nan is a cell read back as missing, bool a cell
read back as a boolean, inf a signed infinity read back from an infinity
word. -/
inductive Cell where
  | str : String → Cell
  | num : ℚ → Cell
  | int : ℤ → Cell
  | bool : Bool → Cell
  | inf : Bool → Cell
  | nan : Cell
  deriving DecidableEq, Repr

/-- Numeric value of a digit run. -/
def digitsVal (cs : List Char) : ℕ :=
  cs.foldl (fun a c => a * 10 + (c.toNat - Char.toNat '0')) 0

/-- The exponent tail of a float literal: an optional sign and digits,
scaling the mantissa by the corresponding power of ten. -/
def parseExpTail (m : ℚ) (cs : List Char) : Option ℚ :=
  let se : ℤ × List Char :=
    match cs with
    | '+' :: t => (1, t)
    | '-' :: t => (-1, t)
    | t => (1, t)
  let ds := se.2.takeWhile Char.isDigit
  let rest := se.2.dropWhile Char.isDigit
  if ds.isEmpty || !rest.isEmpty then none
  else some (m * (10 : ℚ) ^ (se.1 * (digitsVal ds : ℤ)))

/-- The numeric reading pandas read_csv gives a textual cell, when it gives
one: optional surrounding whitespace and sign, then an infinity word or
digits with an optional fractional part and exponent; integer texts give
integers, the rest floats.  Decimal values are held exactly as rationals,
the stand-in this file uses for floats throughout. -/
def parseNumeric (s : String) : Option Cell :=
  let cs0 := ((s.toList.dropWhile Char.isWhitespace).reverse.dropWhile
    Char.isWhitespace).reverse
  let sg : Bool × List Char :=
    match cs0 with
    | '+' :: t => (false, t)
    | '-' :: t => (true, t)
    | t => (false, t)
  let neg := sg.1
  let cs1 := sg.2
  if (cs1.map Char.toLower) = "inf".toList ∨
      (cs1.map Char.toLower) = "infinity".toList then
    some (.inf neg)
  else
    let ids := cs1.takeWhile Char.isDigit
    match cs1.dropWhile Char.isDigit with
    | [] =>
      if ids.isEmpty then none
      else some (.int (if neg then -(digitsVal ids : ℤ) else (digitsVal ids : ℤ)))
    | '.' :: cs3 =>
      let fds := cs3.takeWhile Char.isDigit
      let cs4 := cs3.dropWhile Char.isDigit
      if ids.isEmpty && fds.isEmpty then none
      else
        let m0 : ℚ := (digitsVal ids : ℚ) + (digitsVal fds : ℚ) / (10 : ℚ) ^ fds.length
        let m : ℚ := if neg then -m0 else m0
        match cs4 with
        | [] => some (.num m)
        | c :: cs5 =>
          if c = 'e' ∨ c = 'E' then (parseExpTail m cs5).map .num else none
    | c :: cs5 =>
      if c = 'e' ∨ c = 'E' then
        if ids.isEmpty then none
        else
          let m : ℚ := (digitsVal ids : ℚ)
          (parseExpTail (if neg then -m else m) cs5).map .num
      else none

/-- The default NA tokens of pandas read_csv, all nineteen: a textual cell
equal to one of these is parsed as missing. -/
def csvNaTokens : List String :=
  ["", "#N/A", "#N/A N/A", "#NA", "-1.#IND", "-1.#QNAN", "-NaN", "-nan",
   "1.#IND", "1.#QNAN", "<NA>", "N/A", "NA", "NULL", "NaN", "None", "n/a",
   "nan", "null"]

/-- The texts the pandas parser reads as boolean true. -/
def csvTrueTokens : List String := ["True", "TRUE", "true"]

/-- The texts the pandas parser reads as boolean false. -/
def csvFalseTokens : List String := ["False", "FALSE", "false"]

/-- NA substitution on one cell: an NA-token text becomes missing. -/
def readCellNA : Cell → Cell
  | .str s => if s ∈ csvNaTokens then .nan else .str s
  | .num q => .num q
  | .int n => .int n
  | .bool b => .bool b
  | .inf b => .inf b
  | .nan => .nan

/-- The cell a numeric-dtype conversion of the column would make of this
cell, when the cell admits one: numbers, infinities and NaN pass, a textual
cell must parse as a number. -/
def cellNumView : Cell → Option Cell
  | .str s => parseNumeric s
  | .num q => some (.num q)
  | .int n => some (.int n)
  | .bool _ => none
  | .inf b => some (.inf b)
  | .nan => some (.nan)

/-- The cell a boolean-dtype conversion of the column would make of this
cell, when the cell admits one. -/
def cellBoolView : Cell → Option Cell
  | .str s =>
    if s ∈ csvTrueTokens then some (.bool true)
    else if s ∈ csvFalseTokens then some (.bool false)
    else none
  | .bool b => some (.bool b)
  | .num _ => none
  | .int _ => none
  | .inf _ => none
  | .nan => none

/-- The net effect of to_csv then read_csv on one column: NA tokens become
missing; if every remaining cell then reads as numeric the column takes a
numeric dtype, converting its texts; else if every cell is a boolean the
column becomes boolean; otherwise the texts stay strings.  (Within a
converted column the model keeps integer and float cells apart rather than
unifying the dtype; columns a save produces are homogeneous, so this does
not affect the round-trip statements.) -/
def readColumn (col : List Cell) : List Cell :=
  if ((col.map readCellNA).all (fun c => (cellNumView c).isSome)) then
    (col.map readCellNA).map (fun c => (cellNumView c).getD c)
  else if ((col.map readCellNA).all (fun c => (cellBoolView c).isSome)) then
    (col.map readCellNA).map (fun c => (cellBoolView c).getD c)
  else col.map readCellNA

/-- The DataFrame built from the records, as pandas stores it: one named
column of cells per field, in the dict order of weather_api.py. -/
def tableOf (weather_data : List WRec) : List (String × List Cell) :=
  [("city", (weather_data.map (·.city)).map Cell.str),
   ("temperature", (weather_data.map (·.temperature)).map Cell.num),
   ("humidity", (weather_data.map (·.humidity)).map Cell.int),
   ("description", (weather_data.map (·.description)).map Cell.str),
   ("wind_speed", (weather_data.map (·.wind_speed)).map Cell.num),
   ("country", (weather_data.map (·.country)).map Cell.str),
   ("timestamp", (weather_data.map (·.timestamp)).map Cell.str)]

/-- DataHandler.save_to_csv (data_handler.py lines 17-39): refuses empty
input (prints and returns False, writing nothing, modelled none), otherwise
writes the DataFrame of all records; the file is modelled at cell level,
quoting making the cell decomposition of the text exact. -/
def save_to_csv (weather_data : List WRec) : Option (List (String × List Cell)) :=
  if weather_data.isEmpty then none else some (tableOf weather_data)

/-- DataHandler.load_from_csv (data_handler.py lines 69-87), applied to the
file a save produced: pandas read_csv re-interprets every column. -/
def load_from_csv (file : Option (List (String × List Cell))) :
    Option (List (String × List Cell)) :=
  file.map (fun cols => cols.map (fun nc => (nc.1, readColumn nc.2)))

/-- A JSON value as json.dump writes it and json.load returns it. -/
inductive JVal where
  | str : String → JVal
  | num : ℚ → JVal
  | int : ℤ → JVal
  deriving DecidableEq, Repr

/-- The dict save_to_json serializes for one record. -/
def recordToJson (r : WRec) : List (String × JVal) :=
  [("city", .str r.city), ("temperature", .num r.temperature),
   ("humidity", .int r.humidity), ("description", .str r.description),
   ("wind_speed", .num r.wind_speed), ("country", .str r.country),
   ("timestamp", .str r.timestamp)]

/-- DataHandler.save_to_json (data_handler.py lines 41-67): refuses empty
input, otherwise dumps the list of dicts. -/
def save_to_json (weather_data : List WRec) :
    Option (List (List (String × JVal))) :=
  if weather_data.isEmpty then none else some (weather_data.map recordToJson)

/-- DataHandler.load_from_json (data_handler.py lines 89-114) applied to
the file a save produced: json.load parses the dumped text back to the same
list of dicts, JSON text being lossless for strings and numbers. -/
def load_from_json (file : Option (List (List (String × JVal)))) :
    Option (List (List (String × JVal))) := file

/-- Key lookup in a loaded JSON dict. -/
def jlookup (k : String) : List (String × JVal) → Option JVal
  | [] => none
  | (k2, v) :: rest => if k2 = k then some v else jlookup k rest

/-- Rebuilding a WeatherRecord from a loaded JSON dict, field by field. -/
def jsonToRecord (j : List (String × JVal)) : Option WRec :=
  match jlookup "city" j, jlookup "temperature" j, jlookup "humidity" j,
      jlookup "description" j, jlookup "wind_speed" j, jlookup "country" j,
      jlookup "timestamp" j with
  | some (.str c), some (.num t), some (.int hu), some (.str de),
      some (.num w), some (.str co), some (.str ts) =>
    some ⟨c, t, hu, de, w, co, ts⟩
  | _, _, _, _, _, _, _ => none

theorem jsonToRecord_recordToJson (r : WRec) :
    jsonToRecord (recordToJson r) = some r := rfl

/-- A string field survives the CSV round-trip untouched iff read_csv does
not reinterpret its text: not an NA token, not a numeric or infinity
literal, and not a boolean token. -/
def survivesCsv (s : String) : Bool :=
  decide (s ∉ csvNaTokens) && (parseNumeric s).isNone &&
  decide (s ∉ csvTrueTokens) && decide (s ∉ csvFalseTokens)

theorem readColumn_num (qs : List ℚ) :
    readColumn (qs.map Cell.num) = qs.map Cell.num := by
  unfold readColumn
  have h1 : (qs.map Cell.num).map readCellNA = qs.map Cell.num := by
    rw [List.map_map]
    exact List.map_congr_left (fun q _ => rfl)
  rw [h1]
  have hall : ((qs.map Cell.num).all (fun c => (cellNumView c).isSome)) = true := by
    rw [List.all_eq_true]
    intro c hc
    obtain ⟨q, _, rfl⟩ := List.mem_map.mp hc
    rfl
  rw [if_pos hall, List.map_map]
  exact List.map_congr_left (fun q _ => rfl)

theorem readColumn_int (ns : List ℤ) :
    readColumn (ns.map Cell.int) = ns.map Cell.int := by
  unfold readColumn
  have h1 : (ns.map Cell.int).map readCellNA = ns.map Cell.int := by
    rw [List.map_map]
    exact List.map_congr_left (fun n _ => rfl)
  rw [h1]
  have hall : ((ns.map Cell.int).all (fun c => (cellNumView c).isSome)) = true := by
    rw [List.all_eq_true]
    intro c hc
    obtain ⟨n, _, rfl⟩ := List.mem_map.mp hc
    rfl
  rw [if_pos hall, List.map_map]
  exact List.map_congr_left (fun n _ => rfl)

theorem readColumn_str (ss : List String) (hne : ss ≠ [])
    (hs : ∀ s ∈ ss, survivesCsv s = true) :
    readColumn (ss.map Cell.str) = ss.map Cell.str := by
  have hparts : ∀ s ∈ ss, s ∉ csvNaTokens ∧ (parseNumeric s).isNone = true ∧
      s ∉ csvTrueTokens ∧ s ∉ csvFalseTokens := by
    intro s hsm
    have hsv := hs s hsm
    unfold survivesCsv at hsv
    simp only [Bool.and_eq_true, decide_eq_true_eq] at hsv
    exact ⟨hsv.1.1.1, hsv.1.1.2, hsv.1.2, hsv.2⟩
  obtain ⟨s0, ss2, rfl⟩ := List.exists_cons_of_ne_nil hne
  have h0 := hparts s0 (List.mem_cons_self _ _)
  unfold readColumn
  have h1 : (((s0 :: ss2).map Cell.str)).map readCellNA = (s0 :: ss2).map Cell.str := by
    rw [List.map_map]
    refine List.map_congr_left ?_
    intro s hsm
    show readCellNA (Cell.str s) = Cell.str s
    rw [show readCellNA (Cell.str s) =
      (if s ∈ csvNaTokens then Cell.nan else Cell.str s) from rfl]
    rw [if_neg (hparts s hsm).1]
  rw [h1]
  have hnum : ¬ ((((s0 :: ss2).map Cell.str).all
      (fun c => (cellNumView c).isSome)) = true) := by
    intro hall
    have hc := (List.all_eq_true.mp hall) (Cell.str s0)
      (List.mem_map.mpr ⟨s0, List.mem_cons_self _ _, rfl⟩)
    have hnone : parseNumeric s0 = none :=
      Option.isNone_iff_eq_none.mp h0.2.1
    rw [show cellNumView (Cell.str s0) = parseNumeric s0 from rfl, hnone] at hc
    simp at hc
  rw [if_neg hnum]
  have hbool : ¬ ((((s0 :: ss2).map Cell.str).all
      (fun c => (cellBoolView c).isSome)) = true) := by
    intro hall
    have hc := (List.all_eq_true.mp hall) (Cell.str s0)
      (List.mem_map.mpr ⟨s0, List.mem_cons_self _ _, rfl⟩)
    have hnone : cellBoolView (Cell.str s0) = none := by
      rw [show cellBoolView (Cell.str s0) =
        (if s0 ∈ csvTrueTokens then some (Cell.bool true)
         else if s0 ∈ csvFalseTokens then some (Cell.bool false)
         else none) from rfl]
      rw [if_neg h0.2.2.1, if_neg h0.2.2.2]
    rw [hnone] at hc
    simp at hc
  rw [if_neg hbool]

/-- C9 amended: saving a non-empty RecordSet and loading it back is
lossless in every field for the JSON format, and for the CSV format
provided no string field is a text read_csv reinterprets (an NA token, a
numeric or infinity literal, or a boolean token): under that proviso the
loaded DataFrame equals the written one column for column, and the loaded
JSON dicts decode to exactly the original records.  A record with such a
string field loads from CSV with the field reinterpreted, see the
counterexample. -/
theorem save_load_round_trip (data : List WRec) (h : data ≠ [])
    (hs : ∀ r ∈ data, survivesCsv r.city = true ∧
      survivesCsv r.description = true ∧ survivesCsv r.country = true ∧
      survivesCsv r.timestamp = true) :
    load_from_csv (save_to_csv data) = some (tableOf data)
    ∧ load_from_json (save_to_json data) = some (data.map recordToJson)
    ∧ (load_from_json (save_to_json data)).map (fun ds => ds.map jsonToRecord) =
        some (data.map (fun r => some r)) := by
  have hcsv : save_to_csv data = some (tableOf data) := by
    unfold save_to_csv
    rw [if_neg (by simpa using h)]
  have hjson : save_to_json data = some (data.map recordToJson) := by
    unfold save_to_json
    rw [if_neg (by simpa using h)]
  refine ⟨?_, ?_, ?_⟩
  · rw [hcsv]
    unfold load_from_csv
    rw [Option.map_some']
    congr 1
    unfold tableOf
    simp only [List.map_cons, List.map_nil]
    rw [readColumn_str (data.map (·.city)) (by simpa using h)
        (fun s hsm => by
          obtain ⟨r, hr, rfl⟩ := List.mem_map.mp hsm
          exact (hs r hr).1),
      readColumn_num (data.map (·.temperature)),
      readColumn_int (data.map (·.humidity)),
      readColumn_str (data.map (·.description)) (by simpa using h)
        (fun s hsm => by
          obtain ⟨r, hr, rfl⟩ := List.mem_map.mp hsm
          exact (hs r hr).2.1),
      readColumn_num (data.map (·.wind_speed)),
      readColumn_str (data.map (·.country)) (by simpa using h)
        (fun s hsm => by
          obtain ⟨r, hr, rfl⟩ := List.mem_map.mp hsm
          exact (hs r hr).2.2.1),
      readColumn_str (data.map (·.timestamp)) (by simpa using h)
        (fun s hsm => by
          obtain ⟨r, hr, rfl⟩ := List.mem_map.mp hsm
          exact (hs r hr).2.2.2)]
  · unfold load_from_json
    exact hjson
  · unfold load_from_json
    rw [hjson, Option.map_some']
    congr 1
    rw [List.map_map]
    apply List.map_congr_left
    intro r _
    exact jsonToRecord_recordToJson r

/-- Witness for save_load_round_trip at a concrete one-record input whose
string fields read_csv does not reinterpret. -/
theorem save_load_round_trip_witness :
    load_from_csv (save_to_csv [⟨"Paris", 20, 50, "Clear Sky", 3, "FR", "t"⟩]) =
      some (tableOf [⟨"Paris", 20, 50, "Clear Sky", 3, "FR", "t"⟩]) :=
  (save_load_round_trip [⟨"Paris", 20, 50, "Clear Sky", 3, "FR", "t"⟩]
    (List.cons_ne_nil _ _)
    (by
      intro r hr
      rcases List.mem_cons.mp hr with rfl | hr2
      · exact ⟨by decide, by decide, by decide, by decide⟩
      · simp at hr2)).1

/-- C9 counterexample: a record whose description is the empty string does
not survive the CSV round-trip: read_csv parses the empty cell as missing,
so the loaded DataFrame differs from the written one in that field. -/
theorem save_load_round_trip_counterexample :
    load_from_csv (save_to_csv [⟨"Paris", 20, 50, "", 3, "FR", "t"⟩]) ≠
      some (tableOf [⟨"Paris", 20, 50, "", 3, "FR", "t"⟩]) := by
  intro hcontra
  have h1 : load_from_csv (save_to_csv [⟨"Paris", 20, 50, "", 3, "FR", "t"⟩]) =
      some [("city", [Cell.str "Paris"]), ("temperature", [Cell.num 20]),
        ("humidity", [Cell.int 50]), ("description", [Cell.nan]),
        ("wind_speed", [Cell.num 3]), ("country", [Cell.str "FR"]),
        ("timestamp", [Cell.str "t"])] := rfl
  have h2 : tableOf [⟨"Paris", 20, 50, "", 3, "FR", "t"⟩] =
      [("city", [Cell.str "Paris"]), ("temperature", [Cell.num 20]),
        ("humidity", [Cell.int 50]), ("description", [Cell.str ""]),
        ("wind_speed", [Cell.num 3]), ("country", [Cell.str "FR"]),
        ("timestamp", [Cell.str "t"])] := rfl
  rw [h1, h2] at hcontra
  have h3 := Option.some_inj.mp hcontra
  have h4 : (("description", ([Cell.nan] : List Cell)) ::
      [("wind_speed", [Cell.num 3]), ("country", [Cell.str "FR"]),
       ("timestamp", [Cell.str "t"])]) =
      (("description", ([Cell.str ""] : List Cell)) ::
      [("wind_speed", [Cell.num 3]), ("country", [Cell.str "FR"]),
       ("timestamp", [Cell.str "t"])]) :=
    congrArg (fun l => l.drop 3) h3
  have h5 := congrArg Prod.snd (List.head_eq_of_cons_eq h4)
  exact Cell.noConfusion (List.head_eq_of_cons_eq h5)

end Weather
